import Mathlib

/-!
Verification of the hermes-agent gateway core: a shallow embedding of the
delivery router (`gateway/delivery.py`), gateway configuration
(`gateway/config.py`), the base platform adapter (`gateway/platforms/base.py`),
the Discord response gate (`gateway/platforms/discord.py`) and the
send_message tool's file-path validation (`tools/send_message_tool.py`),
together with theorems settling the specification claims.

Python `str` values are embedded as `List Char`; Python `dict` values are
embedded as association lists or as functions to `Option`.
-/

set_option autoImplicit false

namespace Hermes

/-- Embedding of Python `str`: a list of characters. -/
abbrev Str := List Char

/-- Whitespace test used by Python `str.strip` / `str.lstrip` (ASCII model:
space, tab, newline, carriage return; the strings handled by the gateway are
ASCII identifiers and flags). -/
def pyIsSpace (c : Char) : Bool := c.isWhitespace

/-- Embedding of Python `str.lstrip()`: drop leading whitespace. -/
def lstripStr (l : Str) : Str := l.dropWhile pyIsSpace

/-- Embedding of Python `str.rstrip()`: drop trailing whitespace. -/
def rstripStr (l : Str) : Str := (l.reverse.dropWhile pyIsSpace).reverse

/-- Embedding of Python `str.strip()`: drop whitespace from both ends. -/
def trimStr (l : Str) : Str := lstripStr (rstripStr l)

/-- Lower-casing of one character, as Python `str.lower` acts on the ASCII
range (the only range the gateway's platform names and flags use). -/
def lowerChar (c : Char) : Char :=
  if 65 ≤ c.toNat ∧ c.toNat ≤ 90 then Char.ofNat (c.toNat + 32) else c

/-- Embedding of Python `str.lower()` (ASCII model). -/
def lowerStr (l : Str) : Str := l.map lowerChar

/-- Embedding of Python `s.split(sep)` for a one-character separator:
splits at every occurrence, keeping empty fields (`"".split(sep) == [""]`). -/
def splitOnChar (sep : Char) : Str → List Str
  | [] => [[]]
  | c :: rest =>
    let r := splitOnChar sep rest
    if c = sep then [] :: r
    else
      match r with
      | [] => [[c]]
      | h :: t => (c :: h) :: t

/-- Embedding of Python `s.split(sep, 1)`: split at the first occurrence of
the separator; `none` when the separator does not occur (in which case
Python returns the one-element list `[s]`). -/
def splitFirst (sep : Char) : Str → Option (Str × Str)
  | [] => none
  | c :: rest =>
    if c = sep then some ([], rest)
    else (splitFirst sep rest).map (fun p => (c :: p.1, p.2))

/-- Supported messaging platforms (`gateway/config.py`, `class Platform`).
The source enumeration has exactly these four members; it has no member for
Slack. -/
inductive Platform where
  | LOCAL
  | TELEGRAM
  | DISCORD
  | WHATSAPP
deriving DecidableEq, Repr

namespace Platform

/-- The `value` string of each `Platform` enum member. -/
def value : Platform → Str
  | LOCAL => ("local").toList
  | TELEGRAM => ("telegram").toList
  | DISCORD => ("discord").toList
  | WHATSAPP => ("whatsapp").toList

/-- Embedding of the Python enum constructor call `Platform(s)`:
`some p` when `s` is the value of member `p`, `none` when the call would
raise `ValueError`. -/
def ofString? (s : Str) : Option Platform :=
  if s = value LOCAL then some LOCAL
  else if s = value TELEGRAM then some TELEGRAM
  else if s = value DISCORD then some DISCORD
  else if s = value WHATSAPP then some WHATSAPP
  else none

end Platform

/-- Modelled from the spec: `gateway/session.py` is imported by the gateway
modules but is not under `src/`; §3 of the specification defines
`SessionSource` as the identity of a conversation endpoint with fields
`platform: Platform` and `chat_id: string` (plus optional display fields
that the delivery router never reads). Only the two fields the embedded
code reads are modelled. -/
structure SessionSource where
  platform : Platform
  chat_id : Str
deriving DecidableEq, Repr

/-- A single delivery target (`gateway/delivery.py`, `class DeliveryTarget`). -/
structure DeliveryTarget where
  platform : Platform
  chat_id : Option Str := none
  is_origin : Bool := false
  is_explicit : Bool := false
deriving DecidableEq, Repr

namespace DeliveryTarget

/-- Embedding of `DeliveryTarget.parse` (`gateway/delivery.py`): trim and
lower-case the input, then recognize `origin`, `local`,
`platform:chat_id` and bare `platform` forms; unknown platforms fall back
to a plain local target. -/
def parse (target : Str) (origin : Option SessionSource) : DeliveryTarget :=
  let t := lowerStr (trimStr target)
  if t = ("origin").toList then
    match origin with
    | some o => ⟨o.platform, some o.chat_id, true, false⟩
    | none => ⟨Platform.LOCAL, none, true, false⟩
  else if t = ("local").toList then ⟨Platform.LOCAL, none, false, false⟩
  else
    match splitFirst ':' t with
    | some (platform_str, chat_id) =>
      match Platform.ofString? platform_str with
      | some platform => ⟨platform, some chat_id, false, true⟩
      | none => ⟨Platform.LOCAL, none, false, false⟩
    | none =>
      match Platform.ofString? t with
      | some platform => ⟨platform, none, false, false⟩
      | none => ⟨Platform.LOCAL, none, false, false⟩

/-- Embedding of `DeliveryTarget.to_string` (`gateway/delivery.py`). A
`chat_id` that is `None` or empty is falsy in Python, so both cases print
the bare platform value. -/
def to_string (t : DeliveryTarget) : Str :=
  if t.is_origin then ("origin").toList
  else if t.platform = Platform.LOCAL then ("local").toList
  else
    match t.chat_id with
    | some c => if c = [] then t.platform.value else t.platform.value ++ ':' :: c
    | none => t.platform.value

end DeliveryTarget


theorem toNat_lowerChar (c : Char) (h : 65 ≤ c.toNat ∧ c.toNat ≤ 90) :
    (lowerChar c).toNat = c.toNat + 32 := by
  have hv : (c.toNat + 32).isValidChar := by
    constructor
    omega
  simp only [lowerChar, if_pos h]
  rw [Char.ofNat, dif_pos hv]
  rfl

theorem lowerChar_lowerChar (c : Char) : lowerChar (lowerChar c) = lowerChar c := by
  by_cases h : 65 ≤ c.toNat ∧ c.toNat ≤ 90
  · have h2 := toNat_lowerChar c h
    have h3 : ¬(65 ≤ (lowerChar c).toNat ∧ (lowerChar c).toNat ≤ 90) := by omega
    rw [lowerChar, if_neg h3]
  · have hc : lowerChar c = c := by rw [lowerChar, if_neg h]
    rw [hc, hc]

theorem ne_of_toNat_ne {c d : Char} (h : c.toNat ≠ d.toNat) : c ≠ d :=
  fun he => h (congrArg Char.toNat he)

theorem isWhitespace_eq_false_of_le (x : Char) (hx : 65 ≤ x.toNat) :
    x.isWhitespace = false := by
  have h32 : (' ').toNat = 32 := rfl
  have h9 : ('\t').toNat = 9 := rfl
  have h13 : ('\x0d').toNat = 13 := rfl
  have h10 : ('\n').toNat = 10 := rfl
  simp only [Char.isWhitespace, Bool.or_eq_false_iff, decide_eq_false_iff_not]
  refine ⟨⟨⟨?_, ?_⟩, ?_⟩, ?_⟩ <;> (apply ne_of_toNat_ne; omega)

theorem pyIsSpace_lowerChar (c : Char) : pyIsSpace (lowerChar c) = pyIsSpace c := by
  by_cases h : 65 ≤ c.toNat ∧ c.toNat ≤ 90
  · have h2 := toNat_lowerChar c h
    simp only [pyIsSpace]
    rw [isWhitespace_eq_false_of_le _ (by omega), isWhitespace_eq_false_of_le _ (by omega)]
  · rw [lowerChar, if_neg h]

theorem rstripStr_eq_rdropWhile (l : Str) : rstripStr l = List.rdropWhile pyIsSpace l := rfl

theorem lstripStr_lstripStr (l : Str) : lstripStr (lstripStr l) = lstripStr l :=
  List.dropWhile_idempotent pyIsSpace l

theorem rstripStr_rstripStr (l : Str) : rstripStr (rstripStr l) = rstripStr l :=
  List.rdropWhile_idempotent pyIsSpace l

theorem rstripStr_lstripStr (l : Str) (h : rstripStr l = l) :
    rstripStr (lstripStr l) = lstripStr l := by
  rw [rstripStr_eq_rdropWhile, List.rdropWhile_eq_self_iff]
  intro hl
  obtain ⟨t, ht⟩ := List.dropWhile_suffix (l := l) pyIsSpace
  have hlne : l ≠ [] := by
    intro he
    apply hl
    rw [lstripStr, he, List.dropWhile_nil]
  have hall := List.rdropWhile_eq_self_iff.mp ((rstripStr_eq_rdropWhile l).symm.trans h) hlne
  have h1 : l.getLast? = (lstripStr l).getLast? := by
    conv_lhs => rw [← ht]
    exact List.getLast?_append_of_ne_nil t hl
  rw [List.getLast?_eq_getLast _ hlne, List.getLast?_eq_getLast _ hl] at h1
  have h2 : (lstripStr l).getLast hl = l.getLast hlne := (Option.some.inj h1).symm
  rw [h2]
  exact hall

theorem trimStr_trimStr (l : Str) : trimStr (trimStr l) = trimStr l := by
  unfold trimStr
  rw [rstripStr_lstripStr (rstripStr l) (rstripStr_rstripStr l), lstripStr_lstripStr]

theorem lstripStr_lowerStr (l : Str) : lstripStr (lowerStr l) = lowerStr (lstripStr l) := by
  unfold lstripStr lowerStr
  have hcomp : pyIsSpace ∘ lowerChar = pyIsSpace := funext pyIsSpace_lowerChar
  rw [List.dropWhile_map, hcomp]

theorem rstripStr_lowerStr (l : Str) : rstripStr (lowerStr l) = lowerStr (rstripStr l) := by
  unfold rstripStr lowerStr
  have hcomp : pyIsSpace ∘ lowerChar = pyIsSpace := funext pyIsSpace_lowerChar
  rw [← List.map_reverse, List.dropWhile_map, List.map_reverse, hcomp]

theorem trimStr_lowerStr (l : Str) : trimStr (lowerStr l) = lowerStr (trimStr l) := by
  unfold trimStr
  rw [rstripStr_lowerStr, lstripStr_lowerStr]

theorem lowerStr_lowerStr (l : Str) : lowerStr (lowerStr l) = lowerStr l := by
  unfold lowerStr
  rw [List.map_map]
  exact List.map_congr_left fun a _ => lowerChar_lowerChar a

/-- The canonicalization `s.strip().lower()` performed by `DeliveryTarget.parse`
is idempotent. -/
theorem canon_idem (l : Str) :
    lowerStr (trimStr (lowerStr (trimStr l))) = lowerStr (trimStr l) := by
  rw [trimStr_lowerStr, lowerStr_lowerStr, trimStr_trimStr]

theorem splitFirst_eq_append {sep : Char} :
    ∀ {l a b : Str}, splitFirst sep l = some (a, b) → l = a ++ sep :: b := by
  intro l
  induction l with
  | nil => intro a b h; simp [splitFirst] at h
  | cons c rest ih =>
    intro a b h
    by_cases hc : c = sep
    · subst hc
      simp [splitFirst] at h
      obtain ⟨h1, h2⟩ := h
      subst h1; subst h2
      rfl
    · simp only [splitFirst, if_neg hc] at h
      cases hsp : splitFirst sep rest with
      | none => rw [hsp] at h; simp at h
      | some p =>
        rw [hsp] at h
        obtain ⟨a', b'⟩ := p
        simp at h
        obtain ⟨h1, h2⟩ := h
        subst h1; subst h2
        rw [List.cons_append]
        rw [← ih hsp]

theorem splitFirst_append {sep : Char} :
    ∀ {l₁ : Str} (l₂ : Str), sep ∉ l₁ → splitFirst sep (l₁ ++ sep :: l₂) = some (l₁, l₂) := by
  intro l₁
  induction l₁ with
  | nil => intro l₂ _; simp [splitFirst]
  | cons c rest ih =>
    intro l₂ hmem
    have hc : ¬(c = sep) := fun he => hmem (he ▸ List.mem_cons_self c rest)
    rw [List.cons_append]
    simp only [splitFirst, if_neg hc]
    rw [ih l₂ (fun hm => hmem (List.mem_cons_of_mem c hm))]
    rfl

theorem splitFirst_none {sep : Char} :
    ∀ {l : Str}, sep ∉ l → splitFirst sep l = none := by
  intro l
  induction l with
  | nil => intro _; rfl
  | cons c rest ih =>
    intro hmem
    have hc : ¬(c = sep) := fun he => hmem (he ▸ List.mem_cons_self c rest)
    simp only [splitFirst, if_neg hc]
    rw [ih (fun hm => hmem (List.mem_cons_of_mem c hm))]
    rfl

theorem rstripStr_append (y x : Str) (h : rstripStr x = x) (hx : x ≠ []) :
    rstripStr (y ++ x) = y ++ x := by
  rw [rstripStr_eq_rdropWhile, List.rdropWhile_eq_self_iff]
  intro hl
  have hall := List.rdropWhile_eq_self_iff.mp ((rstripStr_eq_rdropWhile x).symm.trans h) hx
  have h1 : (y ++ x).getLast? = x.getLast? := List.getLast?_append_of_ne_nil y hx
  rw [List.getLast?_eq_getLast _ hl, List.getLast?_eq_getLast _ hx] at h1
  rw [Option.some.inj h1]
  exact hall

theorem rstripStr_cons (a : Char) (x : Str) (h : rstripStr x = x) (hx : x ≠ []) :
    rstripStr (a :: x) = a :: x :=
  rstripStr_append [a] x h hx

theorem lstripStr_cons (a : Char) (x : Str) (h : pyIsSpace a = false) :
    lstripStr (a :: x) = a :: x :=
  List.dropWhile_cons_of_neg (by rw [h]; exact Bool.false_ne_true)

theorem lowerStr_append (x y : Str) : lowerStr (x ++ y) = lowerStr x ++ lowerStr y :=
  List.map_append lowerChar x y



/-- Canonical delivery targets: the targets in which the redundant fields are
consistent (origin targets are the plain local-origin fallback, local targets
carry no chat id, an explicit chat id is nonempty, lower-case and has no
trailing whitespace, and `is_explicit` tracks the presence of a chat id). -/
def Canonical (t : DeliveryTarget) : Bool :=
  match t with
  | ⟨Platform.LOCAL, none, true, false⟩ => true
  | ⟨_, _, true, _⟩ => false
  | ⟨Platform.LOCAL, none, false, false⟩ => true
  | ⟨Platform.LOCAL, _, false, _⟩ => false
  | ⟨_, none, false, false⟩ => true
  | ⟨_, none, false, true⟩ => false
  | ⟨_, some c, false, true⟩ =>
    decide (c ≠ []) && decide (lowerStr c = c) && decide (rstripStr c = c)
  | ⟨_, some _, false, false⟩ => false

theorem parse_value_chat (pf : Platform) (c : Str) (hpf : pf ≠ Platform.LOCAL)
    (hc : c ≠ []) (hlow : lowerStr c = c) (hrs : rstripStr c = c) :
    DeliveryTarget.parse (pf.value ++ ':' :: c) none = ⟨pf, some c, false, true⟩ := by
  have h1 : rstripStr (':' :: c) = ':' :: c := rstripStr_cons ':' c hrs hc
  cases pf with
  | LOCAL => exact absurd rfl hpf
  | TELEGRAM =>
    have h2 : rstripStr (("telegram").toList ++ ':' :: c) = ("telegram").toList ++ ':' :: c :=
      rstripStr_append _ _ h1 (List.cons_ne_nil _ _)
    have h3 : lstripStr (("telegram").toList ++ ':' :: c) = ("telegram").toList ++ ':' :: c := by
      show lstripStr ('t' :: (("elegram").toList ++ ':' :: c)) = _
      rw [lstripStr_cons _ _ (by decide)]
      rfl
    have hcanon : lowerStr (trimStr (("telegram").toList ++ ':' :: c)) =
        ("telegram").toList ++ ':' :: c := by
      unfold trimStr
      rw [h2, h3, lowerStr_append]
      have hv : lowerStr (("telegram").toList) = ("telegram").toList := by decide
      rw [hv]
      show _ ++ ':' :: lowerStr c = _
      rw [hlow]
    have hno : ¬(("telegram").toList ++ ':' :: c = ("origin").toList) := by
      intro h
      injection h with ha _
      exact absurd ha (by decide)
    have hlo : ¬(("telegram").toList ++ ':' :: c = ("local").toList) := by
      intro h
      injection h with ha _
      exact absurd ha (by decide)
    have hsplit : splitFirst ':' (("telegram").toList ++ ':' :: c) =
        some (("telegram").toList, c) := splitFirst_append c (by decide)
    simp only [DeliveryTarget.parse, Platform.value]
    rw [hcanon, if_neg hno, if_neg hlo, hsplit]
    rfl
  | DISCORD =>
    have h2 : rstripStr (("discord").toList ++ ':' :: c) = ("discord").toList ++ ':' :: c :=
      rstripStr_append _ _ h1 (List.cons_ne_nil _ _)
    have h3 : lstripStr (("discord").toList ++ ':' :: c) = ("discord").toList ++ ':' :: c := by
      show lstripStr ('d' :: (("iscord").toList ++ ':' :: c)) = _
      rw [lstripStr_cons _ _ (by decide)]
      rfl
    have hcanon : lowerStr (trimStr (("discord").toList ++ ':' :: c)) =
        ("discord").toList ++ ':' :: c := by
      unfold trimStr
      rw [h2, h3, lowerStr_append]
      have hv : lowerStr (("discord").toList) = ("discord").toList := by decide
      rw [hv]
      show _ ++ ':' :: lowerStr c = _
      rw [hlow]
    have hno : ¬(("discord").toList ++ ':' :: c = ("origin").toList) := by
      intro h
      injection h with ha _
      exact absurd ha (by decide)
    have hlo : ¬(("discord").toList ++ ':' :: c = ("local").toList) := by
      intro h
      injection h with ha _
      exact absurd ha (by decide)
    have hsplit : splitFirst ':' (("discord").toList ++ ':' :: c) =
        some (("discord").toList, c) := splitFirst_append c (by decide)
    simp only [DeliveryTarget.parse, Platform.value]
    rw [hcanon, if_neg hno, if_neg hlo, hsplit]
    rfl
  | WHATSAPP =>
    have h2 : rstripStr (("whatsapp").toList ++ ':' :: c) = ("whatsapp").toList ++ ':' :: c :=
      rstripStr_append _ _ h1 (List.cons_ne_nil _ _)
    have h3 : lstripStr (("whatsapp").toList ++ ':' :: c) = ("whatsapp").toList ++ ':' :: c := by
      show lstripStr ('w' :: (("hatsapp").toList ++ ':' :: c)) = _
      rw [lstripStr_cons _ _ (by decide)]
      rfl
    have hcanon : lowerStr (trimStr (("whatsapp").toList ++ ':' :: c)) =
        ("whatsapp").toList ++ ':' :: c := by
      unfold trimStr
      rw [h2, h3, lowerStr_append]
      have hv : lowerStr (("whatsapp").toList) = ("whatsapp").toList := by decide
      rw [hv]
      show _ ++ ':' :: lowerStr c = _
      rw [hlow]
    have hno : ¬(("whatsapp").toList ++ ':' :: c = ("origin").toList) := by
      intro h
      injection h with ha _
      exact absurd ha (by decide)
    have hlo : ¬(("whatsapp").toList ++ ':' :: c = ("local").toList) := by
      intro h
      injection h with ha _
      exact absurd ha (by decide)
    have hsplit : splitFirst ':' (("whatsapp").toList ++ ':' :: c) =
        some (("whatsapp").toList, c) := splitFirst_append c (by decide)
    simp only [DeliveryTarget.parse, Platform.value]
    rw [hcanon, if_neg hno, if_neg hlo, hsplit]
    rfl



/-- C3 (counterexample): applying `to_string` to an origin target that
remembers a Telegram origin yields `origin`, which `parse` (with no origin
in scope) turns into the local fallback target, not the original target. -/
theorem c3_parse_format_counterexample :
    DeliveryTarget.parse
      (DeliveryTarget.to_string ⟨Platform.TELEGRAM, some ("123").toList, true, false⟩) none ≠
      ⟨Platform.TELEGRAM, some ("123").toList, true, false⟩ := by decide

/-- C3 (amended): `parse (to_string t) = t` for every canonical target. -/
theorem c3_parse_format_roundtrip (t : DeliveryTarget) (h : Canonical t = true) :
    DeliveryTarget.parse (DeliveryTarget.to_string t) none = t := by
  obtain ⟨pf, cid, org, exp⟩ := t
  cases org with
  | true =>
    cases pf <;> cases cid <;> cases exp <;> simp only [Canonical] at h <;>
      first
        | exact Bool.noConfusion h
        | decide
  | false =>
    cases pf with
    | LOCAL =>
      cases cid <;> cases exp <;> simp only [Canonical] at h <;>
        first
          | exact Bool.noConfusion h
          | decide
    | TELEGRAM =>
      cases cid with
      | none =>
        cases exp <;> simp only [Canonical] at h
        · decide
        · exact Bool.noConfusion h
      | some c =>
        cases exp with
        | false =>
          simp only [Canonical] at h
          exact Bool.noConfusion h
        | true =>
          simp only [Canonical, Bool.and_eq_true, decide_eq_true_eq] at h
          obtain ⟨⟨hc, hlow⟩, hrs⟩ := h
          have hts : DeliveryTarget.to_string ⟨Platform.TELEGRAM, some c, false, true⟩ =
              Platform.value Platform.TELEGRAM ++ ':' :: c := by
            show (if c = [] then _ else _) = _
            rw [if_neg hc]
          rw [hts]
          exact parse_value_chat Platform.TELEGRAM c (by decide) hc hlow hrs
    | DISCORD =>
      cases cid with
      | none =>
        cases exp <;> simp only [Canonical] at h
        · decide
        · exact Bool.noConfusion h
      | some c =>
        cases exp with
        | false =>
          simp only [Canonical] at h
          exact Bool.noConfusion h
        | true =>
          simp only [Canonical, Bool.and_eq_true, decide_eq_true_eq] at h
          obtain ⟨⟨hc, hlow⟩, hrs⟩ := h
          have hts : DeliveryTarget.to_string ⟨Platform.DISCORD, some c, false, true⟩ =
              Platform.value Platform.DISCORD ++ ':' :: c := by
            show (if c = [] then _ else _) = _
            rw [if_neg hc]
          rw [hts]
          exact parse_value_chat Platform.DISCORD c (by decide) hc hlow hrs
    | WHATSAPP =>
      cases cid with
      | none =>
        cases exp <;> simp only [Canonical] at h
        · decide
        · exact Bool.noConfusion h
      | some c =>
        cases exp with
        | false =>
          simp only [Canonical] at h
          exact Bool.noConfusion h
        | true =>
          simp only [Canonical, Bool.and_eq_true, decide_eq_true_eq] at h
          obtain ⟨⟨hc, hlow⟩, hrs⟩ := h
          have hts : DeliveryTarget.to_string ⟨Platform.WHATSAPP, some c, false, true⟩ =
              Platform.value Platform.WHATSAPP ++ ':' :: c := by
            show (if c = [] then _ else _) = _
            rw [if_neg hc]
          rw [hts]
          exact parse_value_chat Platform.WHATSAPP c (by decide) hc hlow hrs

/-- C3 (witness): the round-trip theorem applied to the concrete explicit
target `telegram:123`. -/
theorem c3_parse_format_roundtrip_witness :
    DeliveryTarget.parse
      (DeliveryTarget.to_string ⟨Platform.TELEGRAM, some ("123").toList, false, true⟩) none =
      ⟨Platform.TELEGRAM, some ("123").toList, false, true⟩ :=
  c3_parse_format_roundtrip ⟨Platform.TELEGRAM, some ("123").toList, false, true⟩ (by decide)



/-- C7: the `Platform` enumeration of `gateway/config.py` has no member whose
value is `slack`, so the enum call `Platform("slack")` raises and
`DeliveryTarget.parse` maps both `slack` and `slack:C123` to the local
fallback target instead of a Slack target. -/
theorem c7_platform_slack_missing :
    Platform.ofString? (("slack").toList) = none ∧
    DeliveryTarget.parse (("slack").toList) none = ⟨Platform.LOCAL, none, false, false⟩ ∧
    DeliveryTarget.parse (("slack:C123").toList) none = ⟨Platform.LOCAL, none, false, false⟩ ∧
    (∀ p : Platform, p.value ≠ ("slack").toList) := by
  refine ⟨by decide, by decide, by decide, ?_⟩
  intro p
  cases p <;> decide

/-- C9: `DeliveryTarget.parse` is insensitive to trimming and lower-casing of
its input (it canonicalizes first), the chat id of every explicit parsed
target is lower-case, the empty string parses to the plain local target, and
unrecognized platform names (with or without a `:chat` part) fall back to
the plain local target. Totality of `parse` holds by construction: it is a
Lean function. -/
theorem parse_total_canonical (s : Str) (o : Option SessionSource) :
    DeliveryTarget.parse s o = DeliveryTarget.parse (lowerStr (trimStr s)) o ∧
    (∀ c, (DeliveryTarget.parse s o).is_explicit = true →
      (DeliveryTarget.parse s o).chat_id = some c → lowerStr c = c) ∧
    DeliveryTarget.parse [] o = ⟨Platform.LOCAL, none, false, false⟩ ∧
    (∀ p c, splitFirst ':' (lowerStr (trimStr s)) = some (p, c) →
      Platform.ofString? p = none →
      DeliveryTarget.parse s o = ⟨Platform.LOCAL, none, false, false⟩) ∧
    (splitFirst ':' (lowerStr (trimStr s)) = none →
      lowerStr (trimStr s) ≠ ("origin").toList →
      lowerStr (trimStr s) ≠ ("local").toList →
      Platform.ofString? (lowerStr (trimStr s)) = none →
      DeliveryTarget.parse s o = ⟨Platform.LOCAL, none, false, false⟩) := by
  have hlow : lowerStr (lowerStr (trimStr s)) = lowerStr (trimStr s) := lowerStr_lowerStr _
  refine ⟨?_, ?_, ?_, ?_, ?_⟩
  · simp only [DeliveryTarget.parse]
    rw [canon_idem]
  · intro c hexp hchat
    by_cases h1 : lowerStr (trimStr s) = ("origin").toList
    · exfalso
      simp only [DeliveryTarget.parse, if_pos h1] at hexp
      cases o <;> simp at hexp
    · by_cases h2 : lowerStr (trimStr s) = ("local").toList
      · exfalso
        simp only [DeliveryTarget.parse, if_neg h1, if_pos h2] at hexp
        exact Bool.noConfusion hexp
      · cases hsp : splitFirst ':' (lowerStr (trimStr s)) with
        | none =>
          exfalso
          simp only [DeliveryTarget.parse, if_neg h1, if_neg h2, hsp] at hexp
          cases hof : Platform.ofString? (lowerStr (trimStr s)) <;> rw [hof] at hexp <;>
            simp at hexp
        | some pc =>
          obtain ⟨p0, c0⟩ := pc
          cases hof : Platform.ofString? p0 with
          | none =>
            exfalso
            simp only [DeliveryTarget.parse, if_neg h1, if_neg h2, hsp, hof] at hexp
            exact Bool.noConfusion hexp
          | some pl =>
            simp only [DeliveryTarget.parse, if_neg h1, if_neg h2, hsp, hof] at hchat
            have hc0 : c0 = c := Option.some.inj hchat
            subst hc0
            have h3 := hlow
            rw [splitFirst_eq_append hsp, lowerStr_append] at h3
            have hcolon : lowerStr (':' :: c0) = ':' :: lowerStr c0 := rfl
            rw [hcolon] at h3
            have hlen : (lowerStr p0).length = p0.length := List.length_map _ _
            have := (List.append_inj h3 hlen).2
            exact List.cons.inj this |>.2
  · rfl
  · intro p c hsp hof
    have h1 : lowerStr (trimStr s) ≠ ("origin").toList := by
      intro he
      rw [he] at hsp
      rw [show splitFirst ':' (("origin").toList) = none from by decide] at hsp
      exact Option.noConfusion hsp
    have h2 : lowerStr (trimStr s) ≠ ("local").toList := by
      intro he
      rw [he] at hsp
      rw [show splitFirst ':' (("local").toList) = none from by decide] at hsp
      exact Option.noConfusion hsp
    simp only [DeliveryTarget.parse, if_neg h1, if_neg h2, hsp, hof]
  · intro hsp h1 h2 hof
    simp only [DeliveryTarget.parse, if_neg h1, if_neg h2, hsp, hof]

/-- C9 (witness): the canonicalization theorem applied at the concrete
input `  TELEGRAM:ABC  ` (upper case with surrounding blanks), discharging
its inner hypotheses there: the parse is explicit with chat id `abc`, which
is its own lower-casing. -/
theorem parse_total_canonical_witness :
    lowerStr (("abc").toList) = ("abc").toList :=
  (parse_total_canonical (("  TELEGRAM:ABC  ").toList) none).2.1 (("abc").toList)
    (by decide) (by decide)

/-- Embedding of the JSON-shaped Python values exchanged by the config
`to_dict` and `from_dict` methods. Dictionaries are association lists in
insertion order (Python dicts preserve insertion order and have unique
keys). -/
inductive PyVal where
  | str (s : Str)
  | bool (b : Bool)
  | int (n : Int)
  | list (l : List PyVal)
  | dict (l : List (Str × PyVal))

/-- Association-list lookup by key: first binding wins, matching Python
dict lookup (keys are unique in a real dict). -/
def assocGet {α β : Type} [DecidableEq α] (d : List (α × β)) (k : α) : Option β :=
  match d with
  | [] => none
  | (k0, v) :: rest => if k0 = k then some v else assocGet rest k

/-- Embedding of Python `data.get(key, default)`. -/
def pyGetD (d : List (Str × PyVal)) (k : Str) (dflt : PyVal) : PyVal :=
  (assocGet d k).getD dflt

/-- Python dict assignment `d[k] = v`: overwrite in place (keeping the key's
original position) or append a new binding. -/
def dictInsert {β : Type} (d : List (Str × β)) (k : Str) (v : β) : List (Str × β) :=
  match d with
  | [] => [(k, v)]
  | (k0, v0) :: rest => if k0 = k then (k, v) :: rest else (k0, v0) :: dictInsert rest k v

def PyVal.asStr : PyVal → Option Str
  | .str s => some s
  | _ => none

def PyVal.asBool : PyVal → Option Bool
  | .bool b => some b
  | _ => none

def PyVal.asInt : PyVal → Option Int
  | .int n => some n
  | _ => none

def PyVal.asDict : PyVal → Option (List (Str × PyVal))
  | .dict l => some l
  | _ => none

def PyVal.asList : PyVal → Option (List PyVal)
  | .list l => some l
  | _ => none




/-- Default destination for a platform (`gateway/config.py`, `HomeChannel`). -/
structure HomeChannel where
  platform : Platform
  chat_id : Str
  name : Str
deriving DecidableEq, Repr

/-- Embedding of `HomeChannel.to_dict`. -/
def HomeChannel.to_dict (h : HomeChannel) : List (Str × PyVal) :=
  [(("platform").toList, .str h.platform.value),
   (("chat_id").toList, .str h.chat_id),
   (("name").toList, .str h.name)]

/-- Embedding of `HomeChannel.from_dict`. A missing `platform` or `chat_id`
key raises `KeyError` in Python and an unknown platform raises `ValueError`;
both are modelled as `none`. The embedding is typed on the image of
`to_dict`: it also returns `none` on values of the wrong shape. -/
def HomeChannel.from_dict (d : List (Str × PyVal)) : Option HomeChannel := do
  let pv ← assocGet d (("platform").toList)
  let ps ← pv.asStr
  let platform ← Platform.ofString? ps
  let cv ← assocGet d (("chat_id").toList)
  let chat_id ← cv.asStr
  let name ← (pyGetD d (("name").toList) (.str (("Home").toList))).asStr
  some ⟨platform, chat_id, name⟩

/-- Session reset policy (`gateway/config.py`, `SessionResetPolicy`). -/
structure SessionResetPolicy where
  mode : Str
  at_hour : Int
  idle_minutes : Int
deriving DecidableEq, Repr

/-- Embedding of `SessionResetPolicy.to_dict`. -/
def SessionResetPolicy.to_dict (p : SessionResetPolicy) : List (Str × PyVal) :=
  [(("mode").toList, .str p.mode),
   (("at_hour").toList, .int p.at_hour),
   (("idle_minutes").toList, .int p.idle_minutes)]

/-- Embedding of `SessionResetPolicy.from_dict` (defaults `both`, 4, 120). -/
def SessionResetPolicy.from_dict (d : List (Str × PyVal)) : Option SessionResetPolicy := do
  let mode ← (pyGetD d (("mode").toList) (.str (("both").toList))).asStr
  let at_hour ← (pyGetD d (("at_hour").toList) (.int 4)).asInt
  let idle_minutes ← (pyGetD d (("idle_minutes").toList) (.int 120)).asInt
  some ⟨mode, at_hour, idle_minutes⟩

/-- Configuration for a single messaging platform (`gateway/config.py`,
`PlatformConfig`). `extra` is a free-form dict. -/
structure PlatformConfig where
  enabled : Bool
  token : Option Str
  api_key : Option Str
  home_channel : Option HomeChannel
  extra : List (Str × PyVal)

/-- Python truthiness of an `Optional[str]`: `None` and the empty string are
falsy. -/
def strOptTruthy : Option Str → Bool
  | none => false
  | some s => !s.isEmpty

/-- Embedding of `PlatformConfig.to_dict`: `enabled` and `extra` always,
then `token`, `api_key`, `home_channel` only when truthy. -/
def PlatformConfig.to_dict (c : PlatformConfig) : List (Str × PyVal) :=
  [(("enabled").toList, .bool c.enabled),
   (("extra").toList, .dict c.extra)] ++
  (if strOptTruthy c.token then [(("token").toList, .str (c.token.getD []))] else []) ++
  (if strOptTruthy c.api_key then [(("api_key").toList, .str (c.api_key.getD []))] else []) ++
  (match c.home_channel with
   | some h => [(("home_channel").toList, .dict h.to_dict)]
   | none => [])

/-- Embedding of `PlatformConfig.from_dict`. -/
def PlatformConfig.from_dict (d : List (Str × PyVal)) : Option PlatformConfig := do
  let home_channel ←
    match assocGet d (("home_channel").toList) with
    | none => some none
    | some v => do
      let hd ← v.asDict
      let hc ← HomeChannel.from_dict hd
      some (some hc)
  let enabled ← (pyGetD d (("enabled").toList) (.bool false)).asBool
  let token ←
    match assocGet d (("token").toList) with
    | none => some none
    | some v => v.asStr.map some
  let api_key ←
    match assocGet d (("api_key").toList) with
    | none => some none
    | some v => v.asStr.map some
  let extra ← (pyGetD d (("extra").toList) (.dict [])).asDict
  some ⟨enabled, token, api_key, home_channel, extra⟩

/-- Main gateway configuration (`gateway/config.py`, `GatewayConfig`).
Dicts keyed by `Platform` or by strings are association lists in insertion
order; `sessions_dir` holds the normalized string form of the `Path`
(Python guarantees `Path(str(p)) == p`). -/
structure GatewayConfig where
  platforms : List (Platform × PlatformConfig)
  default_reset_policy : SessionResetPolicy
  reset_by_type : List (Str × SessionResetPolicy)
  reset_by_platform : List (Platform × SessionResetPolicy)
  reset_triggers : List Str
  sessions_dir : Str
  always_log_local : Bool

/-- Embedding of `GatewayConfig.get_home_channel`. -/
def GatewayConfig.get_home_channel (c : GatewayConfig) (p : Platform) : Option HomeChannel :=
  match assocGet c.platforms p with
  | some pc => pc.home_channel
  | none => none

/-- Embedding of `GatewayConfig.to_dict`. -/
def GatewayConfig.to_dict (c : GatewayConfig) : List (Str × PyVal) :=
  [(("platforms").toList,
    .dict (c.platforms.map fun pc => (pc.1.value, .dict pc.2.to_dict))),
   (("default_reset_policy").toList, .dict c.default_reset_policy.to_dict),
   (("reset_by_type").toList,
    .dict (c.reset_by_type.map fun kv => (kv.1, .dict kv.2.to_dict))),
   (("reset_by_platform").toList,
    .dict (c.reset_by_platform.map fun pv => (pv.1.value, .dict pv.2.to_dict))),
   (("reset_triggers").toList, .list (c.reset_triggers.map .str)),
   (("sessions_dir").toList, .str c.sessions_dir),
   (("always_log_local").toList, .bool c.always_log_local)]

/-- The `platforms` loop of `GatewayConfig.from_dict`: unknown platform names
raise `ValueError`, which the source catches and skips; any failure inside
`PlatformConfig.from_dict` propagates. -/
def parsePlatforms : List (Str × PyVal) → Option (List (Platform × PlatformConfig))
  | [] => some []
  | (name, pdata) :: rest =>
    match Platform.ofString? name with
    | none => parsePlatforms rest
    | some p => do
      let pd ← pdata.asDict
      let pc ← PlatformConfig.from_dict pd
      let r ← parsePlatforms rest
      some ((p, pc) :: r)

/-- The `reset_by_type` loop of `GatewayConfig.from_dict`. -/
def parseResetByType : List (Str × PyVal) → Option (List (Str × SessionResetPolicy))
  | [] => some []
  | (name, pdata) :: rest => do
    let pd ← pdata.asDict
    let pol ← SessionResetPolicy.from_dict pd
    let r ← parseResetByType rest
    some ((name, pol) :: r)

/-- The `reset_by_platform` loop of `GatewayConfig.from_dict` (unknown
platform names are skipped). -/
def parseResetByPlatform : List (Str × PyVal) → Option (List (Platform × SessionResetPolicy))
  | [] => some []
  | (name, pdata) :: rest =>
    match Platform.ofString? name with
    | none => parseResetByPlatform rest
    | some p => do
      let pd ← pdata.asDict
      let pol ← SessionResetPolicy.from_dict pd
      let r ← parseResetByPlatform rest
      some ((p, pol) :: r)

/-- Embedding of `GatewayConfig.from_dict`. `home` stands for `Path.home()`,
used only for the default `sessions_dir` when the key is absent. -/
def GatewayConfig.from_dict (home : Str) (d : List (Str × PyVal)) : Option GatewayConfig := do
  let pl ← (pyGetD d (("platforms").toList) (.dict [])).asDict
  let platforms ← parsePlatforms pl
  let rbt ← (pyGetD d (("reset_by_type").toList) (.dict [])).asDict
  let reset_by_type ← parseResetByType rbt
  let rbp ← (pyGetD d (("reset_by_platform").toList) (.dict [])).asDict
  let reset_by_platform ← parseResetByPlatform rbp
  let default_reset_policy ←
    match assocGet d (("default_reset_policy").toList) with
    | none => some (⟨("both").toList, 4, 120⟩ : SessionResetPolicy)
    | some v => do
      let vd ← v.asDict
      SessionResetPolicy.from_dict vd
  let sessions_dir ←
    match assocGet d (("sessions_dir").toList) with
    | none => some (home ++ ("/.hermes/sessions").toList)
    | some v => v.asStr
  let triggersVal := pyGetD d (("reset_triggers").toList)
      (.list [.str (("/new").toList), .str (("/reset").toList)])
  let tl ← triggersVal.asList
  let reset_triggers ← tl.mapM PyVal.asStr
  let always_log_local ← (pyGetD d (("always_log_local").toList) (.bool true)).asBool
  some ⟨platforms, default_reset_policy, reset_by_type, reset_by_platform,
        reset_triggers, sessions_dir, always_log_local⟩



theorem value_ofString (p : Platform) : Platform.ofString? p.value = some p := by
  cases p <;> rfl

theorem sessionResetPolicy_roundtrip (p : SessionResetPolicy) :
    SessionResetPolicy.from_dict p.to_dict = some p := by
  obtain ⟨m, a, i⟩ := p
  rfl

theorem homeChannel_roundtrip (h : HomeChannel) :
    HomeChannel.from_dict h.to_dict = some h := by
  obtain ⟨p, cid, nm⟩ := h
  cases p <;> rfl

theorem platformConfig_roundtrip (pc : PlatformConfig)
    (htok : pc.token ≠ some []) (hapi : pc.api_key ≠ some []) :
    PlatformConfig.from_dict (PlatformConfig.to_dict pc) = some pc := by
  obtain ⟨en, tok, api, hc, ex⟩ := pc
  cases tok with
  | none =>
    cases api with
    | none =>
      cases hc with
      | none => rfl
      | some h =>
        obtain ⟨hp, hcid, hnm⟩ := h
        cases hp <;> rfl
    | some s2 =>
      cases s2 with
      | nil => exact absurd rfl hapi
      | cons a2 t2 =>
        cases hc with
        | none => rfl
        | some h =>
          obtain ⟨hp, hcid, hnm⟩ := h
          cases hp <;> rfl
  | some s =>
    cases s with
    | nil => exact absurd rfl htok
    | cons a t =>
      cases api with
      | none =>
        cases hc with
        | none => rfl
        | some h =>
          obtain ⟨hp, hcid, hnm⟩ := h
          cases hp <;> rfl
      | some s2 =>
        cases s2 with
        | nil => exact absurd rfl hapi
        | cons a2 t2 =>
          cases hc with
          | none => rfl
          | some h =>
            obtain ⟨hp, hcid, hnm⟩ := h
            cases hp <;> rfl



theorem parsePlatforms_roundtrip (pl : List (Platform × PlatformConfig))
    (h : ∀ x ∈ pl, x.2.token ≠ some [] ∧ x.2.api_key ≠ some []) :
    parsePlatforms (pl.map fun pc => (pc.1.value, PyVal.dict pc.2.to_dict)) = some pl := by
  induction pl with
  | nil => rfl
  | cons hd tl ih =>
    obtain ⟨p, pc⟩ := hd
    have h1 := h (p, pc) (List.mem_cons_self _ _)
    have ih2 := ih (fun x hx => h x (List.mem_cons_of_mem _ hx))
    simp only [List.map_cons, parsePlatforms, value_ofString]
    rw [show (PyVal.dict pc.to_dict).asDict = some pc.to_dict from rfl]
    simp only [Option.bind_eq_bind, Option.some_bind]
    rw [platformConfig_roundtrip pc h1.1 h1.2]
    simp only [Option.some_bind]
    rw [ih2]
    rfl

theorem parseResetByType_roundtrip (l : List (Str × SessionResetPolicy)) :
    parseResetByType (l.map fun kv => (kv.1, PyVal.dict kv.2.to_dict)) = some l := by
  induction l with
  | nil => rfl
  | cons hd tl ih =>
    obtain ⟨k, pol⟩ := hd
    simp only [List.map_cons, parseResetByType]
    rw [show (PyVal.dict pol.to_dict).asDict = some pol.to_dict from rfl]
    simp only [Option.bind_eq_bind, Option.some_bind]
    rw [sessionResetPolicy_roundtrip pol]
    simp only [Option.some_bind]
    rw [ih]
    rfl

theorem parseResetByPlatform_roundtrip (l : List (Platform × SessionResetPolicy)) :
    parseResetByPlatform (l.map fun pv => (pv.1.value, PyVal.dict pv.2.to_dict)) = some l := by
  induction l with
  | nil => rfl
  | cons hd tl ih =>
    obtain ⟨p, pol⟩ := hd
    simp only [List.map_cons, parseResetByPlatform, value_ofString]
    rw [show (PyVal.dict pol.to_dict).asDict = some pol.to_dict from rfl]
    simp only [Option.bind_eq_bind, Option.some_bind]
    rw [sessionResetPolicy_roundtrip pol]
    simp only [Option.some_bind]
    rw [ih]
    rfl

theorem mapM_asStr (l : List Str) : (l.map PyVal.str).mapM PyVal.asStr = some l := by
  induction l with
  | nil => rfl
  | cons hd tl ih =>
    simp only [List.map_cons, List.mapM_cons, ih]
    rfl





/-- Embedding of `DeliveryRouter.resolve_targets` (`gateway/delivery.py`):
the loop body, carrying the `seen_platforms` set (as a list of keys) and the
accumulated targets; at the end of the spec list, a plain local target is
appended when `always_log_local` is set and no local key was seen. -/
def resolveAux (config : GatewayConfig) (origin : Option SessionSource) :
    List Str → List (Platform × Option Str) → List DeliveryTarget → List DeliveryTarget
  | [], seen, targets =>
    if config.always_log_local = true ∧ (Platform.LOCAL, (none : Option Str)) ∉ seen then
      targets ++ [⟨Platform.LOCAL, none, false, false⟩]
    else targets
  | target_str :: rest, seen, targets =>
    let target := DeliveryTarget.parse target_str origin
    if target.chat_id = none ∧ target.platform ≠ Platform.LOCAL then
      match (config.get_home_channel target.platform) with
      | some home =>
        let target2 : DeliveryTarget :=
          ⟨target.platform, some home.chat_id, target.is_origin, target.is_explicit⟩
        if (target2.platform, target2.chat_id) ∈ seen then
          resolveAux config origin rest seen targets
        else
          resolveAux config origin rest ((target2.platform, target2.chat_id) :: seen)
            (targets ++ [target2])
      | none => resolveAux config origin rest seen targets
    else
      if (target.platform, target.chat_id) ∈ seen then
        resolveAux config origin rest seen targets
      else
        resolveAux config origin rest ((target.platform, target.chat_id) :: seen)
          (targets ++ [target])

/-- Embedding of `DeliveryRouter.resolve_targets` on an already-listified
delivery spec (the `str` case wraps into a one-element list). -/
def resolve_targets (config : GatewayConfig) (deliver : List Str)
    (origin : Option SessionSource) : List DeliveryTarget :=
  resolveAux config origin deliver [] []

/-- Result entry of one delivery attempt as recorded by
`DeliveryRouter.deliver`: `success` plus the `result` payload or the
`error` string. -/
structure DeliveryResultEntry where
  success : Bool
  payload : Str
deriving DecidableEq, Repr

/-- Embedding of the `try/except` body of `DeliveryRouter.deliver` for one
target, given the outcome of the underlying send (an exception is an
`Except.error`): failures are recorded, never re-raised. -/
def deliverEntry (outcome : DeliveryTarget → Except Str Str) (t : DeliveryTarget) :
    DeliveryResultEntry :=
  match outcome t with
  | .ok r => ⟨true, r⟩
  | .error e => ⟨false, e⟩

/-- Embedding of the loop of `DeliveryRouter.deliver`: every target is
attempted in order and its entry is written into the results dict under the
key `target.to_string()`. -/
def deliverAux (outcome : DeliveryTarget → Except Str Str) :
    List DeliveryTarget → List (Str × DeliveryResultEntry) → List (Str × DeliveryResultEntry)
  | [], results => results
  | t :: rest, results =>
    deliverAux outcome rest (dictInsert results (DeliveryTarget.to_string t) (deliverEntry outcome t))

/-- Embedding of `DeliveryRouter.deliver`: the returned results dict. The
embedding is total (no exception escapes): per-target exceptions surface
only as `success = false` entries. -/
def deliver (outcome : DeliveryTarget → Except Str Str) (targets : List DeliveryTarget) :
    List (Str × DeliveryResultEntry) :=
  deliverAux outcome targets []



theorem assocGet_dictInsert_self {β : Type} (d : List (Str × β)) (k : Str) (v : β) :
    assocGet (dictInsert d k v) k = some v := by
  induction d with
  | nil => simp [dictInsert, assocGet]
  | cons hd tl ih =>
    obtain ⟨k0, v0⟩ := hd
    by_cases hk : k0 = k
    · subst hk
      simp [dictInsert, assocGet]
    · simp only [dictInsert, if_neg hk, assocGet]
      exact ih

theorem assocGet_dictInsert_ne {β : Type} (d : List (Str × β)) (k k' : Str) (v : β)
    (h : k' ≠ k) : assocGet (dictInsert d k v) k' = assocGet d k' := by
  induction d with
  | nil =>
    simp only [dictInsert, assocGet]
    rw [if_neg (fun he => h he.symm)]
  | cons hd tl ih =>
    obtain ⟨k0, v0⟩ := hd
    by_cases hk : k0 = k
    · subst hk
      simp only [dictInsert, if_pos rfl, assocGet]
      rw [if_neg (fun he => h he.symm), if_neg]
      intro he
      exact h he.symm
    · simp only [dictInsert, if_neg hk, assocGet]
      by_cases hk' : k0 = k'
      · rw [if_pos hk', if_pos hk']
      · rw [if_neg hk', if_neg hk']
        exact ih

theorem deliverAux_preserves (outcome : DeliveryTarget → Except Str Str) :
    ∀ (rest : List DeliveryTarget) (d : List (Str × DeliveryResultEntry)) (k : Str),
    (∀ u ∈ rest, DeliveryTarget.to_string u ≠ k) →
    assocGet (deliverAux outcome rest d) k = assocGet d k := by
  intro rest
  induction rest with
  | nil => intro d k _; rfl
  | cons t tl ih =>
    intro d k hne
    simp only [deliverAux]
    rw [ih _ _ (fun u hu => hne u (List.mem_cons_of_mem _ hu))]
    exact assocGet_dictInsert_ne _ _ _ _ (fun he => hne t (List.mem_cons_self _ _) he.symm)

theorem deliverAux_isSome (outcome : DeliveryTarget → Except Str Str) :
    ∀ (rest : List DeliveryTarget) (d : List (Str × DeliveryResultEntry)) (k : Str),
    (assocGet d k).isSome = true →
    (assocGet (deliverAux outcome rest d) k).isSome = true := by
  intro rest
  induction rest with
  | nil => intro d k h; exact h
  | cons t tl ih =>
    intro d k h
    simp only [deliverAux]
    apply ih
    by_cases hk : DeliveryTarget.to_string t = k
    · subst hk
      rw [assocGet_dictInsert_self]
      rfl
    · rw [assocGet_dictInsert_ne _ _ _ _ (fun he => hk he.symm)]
      exact h

theorem deliverAux_entry (outcome : DeliveryTarget → Except Str Str) :
    ∀ (targets : List DeliveryTarget) (d : List (Str × DeliveryResultEntry)),
    targets.Pairwise (fun a b => DeliveryTarget.to_string a ≠ DeliveryTarget.to_string b) →
    ∀ t ∈ targets,
      assocGet (deliverAux outcome targets d) (DeliveryTarget.to_string t) =
        some (deliverEntry outcome t) := by
  intro targets
  induction targets with
  | nil => intro d _ t ht; exact absurd ht (List.not_mem_nil t)
  | cons t0 tl ih =>
    intro d hpw t ht
    have hpw2 := List.pairwise_cons.mp hpw
    rcases List.mem_cons.mp ht with h1 | h1
    · subst h1
      simp only [deliverAux]
      rw [deliverAux_preserves outcome tl _ _ (fun u hu => (hpw2.1 u hu).symm)]
      exact assocGet_dictInsert_self _ _ _
    · simp only [deliverAux]
      exact ih _ hpw2.2 t h1

theorem deliverAux_mem_isSome (outcome : DeliveryTarget → Except Str Str) :
    ∀ (targets : List DeliveryTarget) (d : List (Str × DeliveryResultEntry)),
    ∀ t ∈ targets,
      (assocGet (deliverAux outcome targets d) (DeliveryTarget.to_string t)).isSome = true := by
  intro targets
  induction targets with
  | nil => intro d t ht; exact absurd ht (List.not_mem_nil t)
  | cons t0 tl ih =>
    intro d t ht
    rcases List.mem_cons.mp ht with h1 | h1
    · subst h1
      simp only [deliverAux]
      apply deliverAux_isSome
      rw [assocGet_dictInsert_self]
      rfl
    · simp only [deliverAux]
      exact ih _ t h1

/-- C5 (amended): every resolved target gets an entry in the result map of
`deliver`; and when no two targets share the same `to_string` key, each
target's entry records exactly its own outcome — `success = true` with the
result on success, `success = false` with the error string when its send
raised — so one target's failure leaves every other target's entry intact.
`deliver` is a total function: exceptions are `Except.error` outcomes
recorded per target, and none propagates. -/
theorem deliver_records_all (outcome : DeliveryTarget → Except Str Str)
    (targets : List DeliveryTarget) :
    (∀ t ∈ targets,
      (assocGet (deliver outcome targets) (DeliveryTarget.to_string t)).isSome = true) ∧
    (targets.Pairwise (fun a b => DeliveryTarget.to_string a ≠ DeliveryTarget.to_string b) →
      ∀ t ∈ targets,
        assocGet (deliver outcome targets) (DeliveryTarget.to_string t) =
          some (deliverEntry outcome t)) := by
  constructor
  · intro t ht
    exact deliverAux_mem_isSome outcome targets [] t ht
  · intro hpw t ht
    exact deliverAux_entry outcome targets [] hpw t ht



/-- The deduplication key of `resolve_targets`: `(platform, chat_id)`. -/
def tkey (t : DeliveryTarget) : Platform × Option Str := (t.platform, t.chat_id)

theorem resolveAux_skip (config : GatewayConfig) (origin : Option SessionSource)
    (s : Str) (d2 : List Str)
    (hchat : (DeliveryTarget.parse s origin).chat_id = none)
    (hplat : (DeliveryTarget.parse s origin).platform ≠ Platform.LOCAL)
    (hhome : config.get_home_channel (DeliveryTarget.parse s origin).platform = none) :
    ∀ (d1 : List Str) (seen : List (Platform × Option Str)) (targets : List DeliveryTarget),
    resolveAux config origin (d1 ++ s :: d2) seen targets =
      resolveAux config origin (d1 ++ d2) seen targets := by
  intro d1
  induction d1 with
  | nil =>
    intro seen targets
    simp only [List.nil_append, resolveAux]
    rw [if_pos ⟨hchat, hplat⟩, hhome]
  | cons x d1t ih =>
    intro seen targets
    simp only [List.cons_append, resolveAux]
    split
    · split
      · split
        · exact ih _ _
        · exact ih _ _
      · exact ih _ _
    · split
      · exact ih _ _
      · exact ih _ _

theorem resolveAux_pairwise (config : GatewayConfig) (origin : Option SessionSource) :
    ∀ (specs : List Str) (seen : List (Platform × Option Str)) (targets : List DeliveryTarget),
    (∀ t ∈ targets, tkey t ∈ seen) →
    targets.Pairwise (fun a b => tkey a ≠ tkey b) →
    (resolveAux config origin specs seen targets).Pairwise (fun a b => tkey a ≠ tkey b) := by
  intro specs
  induction specs with
  | nil =>
    intro seen targets hmem hpw
    simp only [resolveAux]
    split
    · next h =>
      rw [List.pairwise_append]
      refine ⟨hpw, List.pairwise_singleton _ _, ?_⟩
      intro a ha b hb
      rw [List.mem_singleton] at hb
      subst hb
      intro hk
      have hmem2 := hmem a ha
      simp only [tkey] at hk hmem2
      exact h.2 (hk ▸ hmem2)
    · exact hpw
  | cons x rest ih =>
    intro seen targets hmem hpw
    simp only [resolveAux]
    split
    · split
      · split
        · exact ih _ _ hmem hpw
        · next hnot =>
          apply ih
          · intro t ht
            rcases List.mem_append.mp ht with h1 | h1
            · exact List.mem_cons_of_mem _ (hmem t h1)
            · rw [List.mem_singleton] at h1
              subst h1
              exact List.mem_cons_self _ _
          · rw [List.pairwise_append]
            refine ⟨hpw, List.pairwise_singleton _ _, ?_⟩
            intro a ha b hb
            rw [List.mem_singleton] at hb
            subst hb
            intro hk
            have hmem2 := hmem a ha
            simp only [tkey] at hk hmem2
            exact hnot (hk ▸ hmem2)
      · exact ih _ _ hmem hpw
    · split
      · exact ih _ _ hmem hpw
      · next hnot =>
        apply ih
        · intro t ht
          rcases List.mem_append.mp ht with h1 | h1
          · exact List.mem_cons_of_mem _ (hmem t h1)
          · rw [List.mem_singleton] at h1
            subst h1
            exact List.mem_cons_self _ _
        · rw [List.pairwise_append]
          refine ⟨hpw, List.pairwise_singleton _ _, ?_⟩
          intro a ha b hb
          rw [List.mem_singleton] at hb
          subst hb
          intro hk
          have hmem2 := hmem a ha
          simp only [tkey] at hk hmem2
          exact hnot (hk ▸ hmem2)

theorem resolveAux_local (config : GatewayConfig) (origin : Option SessionSource)
    (hal : config.always_log_local = true) :
    ∀ (specs : List Str) (seen : List (Platform × Option Str)) (targets : List DeliveryTarget),
    (∀ k ∈ seen, ∃ t ∈ targets, tkey t = k) →
    ∃ t ∈ resolveAux config origin specs seen targets, t.platform = Platform.LOCAL := by
  intro specs
  induction specs with
  | nil =>
    intro seen targets hinv
    simp only [resolveAux]
    split
    · refine ⟨⟨Platform.LOCAL, none, false, false⟩, ?_, rfl⟩
      exact List.mem_append.mpr (Or.inr (List.mem_singleton.mpr rfl))
    · next h =>
      have hmem : (Platform.LOCAL, (none : Option Str)) ∈ seen := by
        by_contra hn
        exact h ⟨hal, hn⟩
      obtain ⟨t, ht, hk⟩ := hinv _ hmem
      exact ⟨t, ht, congrArg Prod.fst hk⟩
  | cons x rest ih =>
    intro seen targets hinv
    simp only [resolveAux]
    split
    · split
      · split
        · exact ih _ _ hinv
        · apply ih
          intro k hk
          rcases List.mem_cons.mp hk with h1 | h1
          · subst h1
            exact ⟨_, List.mem_append.mpr (Or.inr (List.mem_singleton.mpr rfl)), rfl⟩
          · obtain ⟨t, ht, hkt⟩ := hinv k h1
            exact ⟨t, List.mem_append.mpr (Or.inl ht), hkt⟩
      · exact ih _ _ hinv
    · split
      · exact ih _ _ hinv
      · apply ih
        intro k hk
        rcases List.mem_cons.mp hk with h1 | h1
        · subst h1
          exact ⟨_, List.mem_append.mpr (Or.inr (List.mem_singleton.mpr rfl)), rfl⟩
        · obtain ⟨t, ht, hkt⟩ := hinv k h1
          exact ⟨t, List.mem_append.mpr (Or.inl ht), hkt⟩



/-- C4: for every delivery spec list and origin, `resolve_targets` returns a
list with pairwise-distinct `(platform, chat_id)` keys; a spec that parses to
a bare platform (no chat id, not local) whose platform has no configured home
channel contributes no target (dropping it from the spec list leaves the
result unchanged); and when `always_log_local` is set the result contains a
local target. -/
theorem resolve_targets_spec (config : GatewayConfig) (deliver : List Str)
    (origin : Option SessionSource) :
    (resolve_targets config deliver origin).Pairwise
      (fun a b => (a.platform, a.chat_id) ≠ (b.platform, b.chat_id)) ∧
    (∀ (d1 d2 : List Str) (s : Str),
      (DeliveryTarget.parse s origin).chat_id = none →
      (DeliveryTarget.parse s origin).platform ≠ Platform.LOCAL →
      config.get_home_channel (DeliveryTarget.parse s origin).platform = none →
      resolve_targets config (d1 ++ s :: d2) origin = resolve_targets config (d1 ++ d2) origin) ∧
    (config.always_log_local = true →
      ∃ t ∈ resolve_targets config deliver origin, t.platform = Platform.LOCAL) := by
  refine ⟨?_, ?_, ?_⟩
  · have h := resolveAux_pairwise config origin deliver [] []
      (fun t ht => absurd ht (List.not_mem_nil t)) List.Pairwise.nil
    simpa only [tkey] using h
  · intro d1 d2 s hchat hplat hhome
    exact resolveAux_skip config origin s d2 hchat hplat hhome d1 [] []
  · intro hal
    exact resolveAux_local config origin hal deliver [] []
      (fun k hk => absurd hk (List.not_mem_nil k))

/-- C4 (witness): the theorem applied to a concrete configuration with
`always_log_local` set and no home channel for telegram: the bare
`telegram` spec contributes nothing, and a local target is present. -/
theorem resolve_targets_spec_witness :
    (resolve_targets
        ⟨[], ⟨("both").toList, 4, 120⟩, [], [], [], ("x").toList, true⟩
        ([("telegram").toList] ++ [] : List Str) none =
      resolve_targets
        ⟨[], ⟨("both").toList, 4, 120⟩, [], [], [], ("x").toList, true⟩
        ([] ++ [] : List Str) none) ∧
    (∃ t ∈ resolve_targets
        ⟨[], ⟨("both").toList, 4, 120⟩, [], [], [], ("x").toList, true⟩
        [("telegram").toList] none, t.platform = Platform.LOCAL) :=
  ⟨(resolve_targets_spec
      ⟨[], ⟨("both").toList, 4, 120⟩, [], [], [], ("x").toList, true⟩
      [("telegram").toList] none).2.1 [] [] (("telegram").toList)
      (by decide) (by decide) (by decide),
   (resolve_targets_spec
      ⟨[], ⟨("both").toList, 4, 120⟩, [], [], [], ("x").toList, true⟩
      [("telegram").toList] none).2.2 rfl⟩

/-- C5 (counterexample): `deliver` keys its result dict by
`target.to_string()`, and two distinct explicit local targets `local:a` and
`local:b` both print as `local`. When delivering to the first raises
(`boom`) and the second succeeds, the single `local` entry records
`success = true`: the failed target's entry does not record
`success = false` as the claim states. -/
theorem deliver_collision_counterexample :
    (deliverEntry
        (fun t => if t.chat_id = some (("a").toList)
          then Except.error (("boom").toList) else Except.ok (("ok").toList))
        ⟨Platform.LOCAL, some (("a").toList), false, true⟩ =
      ⟨false, ("boom").toList⟩) ∧
    DeliveryTarget.to_string ⟨Platform.LOCAL, some (("a").toList), false, true⟩ =
      ("local").toList ∧
    DeliveryTarget.to_string ⟨Platform.LOCAL, some (("b").toList), false, true⟩ =
      ("local").toList ∧
    assocGet
      (deliver
        (fun t => if t.chat_id = some (("a").toList)
          then Except.error (("boom").toList) else Except.ok (("ok").toList))
        [⟨Platform.LOCAL, some (("a").toList), false, true⟩,
         ⟨Platform.LOCAL, some (("b").toList), false, true⟩])
      (("local").toList) = some ⟨true, ("ok").toList⟩ := by decide

/-- C5 (witness): the amended theorem applied to two concrete targets with
distinct keys, the first of which fails: its entry records the error. -/
theorem deliver_records_all_witness :
    assocGet
      (deliver
        (fun t => if t.platform = Platform.TELEGRAM
          then Except.error (("boom").toList) else Except.ok (("ok").toList))
        [⟨Platform.TELEGRAM, some (("1").toList), false, true⟩,
         ⟨Platform.LOCAL, none, false, false⟩])
      (DeliveryTarget.to_string ⟨Platform.TELEGRAM, some (("1").toList), false, true⟩) =
      some ⟨false, ("boom").toList⟩ :=
  (deliver_records_all
    (fun t => if t.platform = Platform.TELEGRAM
      then Except.error (("boom").toList) else Except.ok (("ok").toList))
    [⟨Platform.TELEGRAM, some (("1").toList), false, true⟩,
     ⟨Platform.LOCAL, none, false, false⟩]).2 (by decide)
    ⟨Platform.TELEGRAM, some (("1").toList), false, true⟩ (by decide)



/-- C10 (counterexample): a `GatewayConfig` whose telegram entry has the
empty string as token does not round-trip: `to_dict` omits falsy tokens, so
`from_dict` reconstructs `token = None` instead of the empty string. -/
theorem gatewayConfig_roundtrip_counterexample :
    GatewayConfig.from_dict (("h").toList)
      (GatewayConfig.to_dict
        ⟨[(Platform.TELEGRAM, ⟨true, some [], none, none, []⟩)],
         ⟨("both").toList, 4, 120⟩, [], [], [("/new").toList], ("x").toList, true⟩) ≠
    some ⟨[(Platform.TELEGRAM, ⟨true, some [], none, none, []⟩)],
          ⟨("both").toList, 4, 120⟩, [], [], [("/new").toList], ("x").toList, true⟩ := by
  intro hEq
  have hrfl : GatewayConfig.from_dict (("h").toList)
      (GatewayConfig.to_dict
        ⟨[(Platform.TELEGRAM, ⟨true, some [], none, none, []⟩)],
         ⟨("both").toList, 4, 120⟩, [], [], [("/new").toList], ("x").toList, true⟩) =
      some ⟨[(Platform.TELEGRAM, ⟨true, none, none, none, []⟩)],
            ⟨("both").toList, 4, 120⟩, [], [], [("/new").toList], ("x").toList, true⟩ := rfl
  rw [hrfl] at hEq
  have h2 := Option.some.inj hEq
  have h4 := congrArg (fun c : GatewayConfig => c.platforms.map (fun x => x.2.token)) h2
  exact absurd h4 (by decide)

/-- C10 (amended): `GatewayConfig.from_dict (config.to_dict())` reconstructs
the configuration exactly — platform entries with `enabled`, `token`,
`api_key`, `home_channel` and `extra`, the default and per-type/per-platform
reset policies, `reset_triggers`, `sessions_dir` and `always_log_local` —
provided every platform entry's `token` and `api_key` are `None` or
nonempty (Python truthiness makes `to_dict` drop empty strings, which
come back as `None`). The dict-key hypotheses record that Python dicts
cannot hold duplicate keys; valid platform keys hold by typing in the
embedding. -/
theorem gatewayConfig_roundtrip (home : Str) (c : GatewayConfig)
    (h : ∀ x ∈ c.platforms, x.2.token ≠ some [] ∧ x.2.api_key ≠ some [])
    (hnd1 : (c.platforms.map Prod.fst).Nodup)
    (hnd2 : (c.reset_by_type.map Prod.fst).Nodup)
    (hnd3 : (c.reset_by_platform.map Prod.fst).Nodup) :
    GatewayConfig.from_dict home (GatewayConfig.to_dict c) = some c := by
  obtain ⟨pl, dp, rbt, rbp, rt, sd, al⟩ := c
  have h1 := parsePlatforms_roundtrip pl h
  have h2 := parseResetByType_roundtrip rbt
  have h3 := parseResetByPlatform_roundtrip rbp
  have h4 := sessionResetPolicy_roundtrip dp
  have h5 := mapM_asStr rt
  show ((parsePlatforms (pl.map fun pc => (pc.1.value, PyVal.dict pc.2.to_dict))).bind fun platforms =>
    (parseResetByType (rbt.map fun kv => (kv.1, PyVal.dict kv.2.to_dict))).bind fun reset_by_type =>
    (parseResetByPlatform (rbp.map fun pv => (pv.1.value, PyVal.dict pv.2.to_dict))).bind fun reset_by_platform =>
    (SessionResetPolicy.from_dict dp.to_dict).bind fun default_reset_policy =>
    ((rt.map PyVal.str).mapM PyVal.asStr).bind fun reset_triggers =>
    some (GatewayConfig.mk platforms default_reset_policy reset_by_type reset_by_platform
          reset_triggers sd al)) = some (GatewayConfig.mk pl dp rbt rbp rt sd al)
  rw [h1, h2, h3, h4, h5]
  rfl


/-- C10 (witness): the round-trip theorem applied to a concrete
configuration with a telegram platform entry, a home channel, an extra
field, a per-type and a per-platform reset override. -/
theorem gatewayConfig_roundtrip_witness :
    GatewayConfig.from_dict (("h").toList)
      (GatewayConfig.to_dict
        ⟨[(Platform.TELEGRAM,
           ⟨true, some (("tok").toList), none,
            some ⟨Platform.TELEGRAM, ("77").toList, ("Home").toList⟩,
            [(("k").toList, PyVal.int 3)]⟩)],
         ⟨("both").toList, 4, 120⟩,
         [(("dm").toList, ⟨("idle").toList, 2, 30⟩)],
         [(Platform.DISCORD, ⟨("daily").toList, 5, 60⟩)],
         [("/new").toList, ("/reset").toList], ("sessions").toList, true⟩) =
    some ⟨[(Platform.TELEGRAM,
           ⟨true, some (("tok").toList), none,
            some ⟨Platform.TELEGRAM, ("77").toList, ("Home").toList⟩,
            [(("k").toList, PyVal.int 3)]⟩)],
         ⟨("both").toList, 4, 120⟩,
         [(("dm").toList, ⟨("idle").toList, 2, 30⟩)],
         [(Platform.DISCORD, ⟨("daily").toList, 5, 60⟩)],
         [("/new").toList, ("/reset").toList], ("sessions").toList, true⟩ :=
  gatewayConfig_roundtrip (("h").toList) _
    (by intro x hx; rw [List.mem_singleton] at hx; subst hx; exact ⟨by decide, by decide⟩)
    (by decide) (by decide) (by decide)

/-- Normalized inbound message (`gateway/platforms/base.py`, `MessageEvent`);
only the fields `handle_message` reads are modelled. -/
structure MessageEvent where
  text : Str
  source : SessionSource
deriving DecidableEq, Repr

/-- The per-adapter mutable state of `BasePlatformAdapter` that
`handle_message` touches: whether a message handler is registered,
`_active_sessions` (session key to the `is_set` flag of that session's
interrupt `asyncio.Event`) and `_pending_messages` (session key to the
pending event). Python dicts are modelled as maps into `Option`, which
makes the one-slot-per-key capacity structural: the content of the claim is
the overwrite (latest wins). -/
structure AdapterState where
  message_handler : Bool
  active_sessions : Str → Option Bool
  pending_messages : Str → Option MessageEvent

/-- Embedding of `BasePlatformAdapter.handle_message`: returns the new state
and whether a background worker task was spawned for the event. -/
def handle_message (st : AdapterState) (event : MessageEvent) : AdapterState × Bool :=
  if st.message_handler = false then (st, false)
  else
    let session_key := event.source.chat_id
    if (st.active_sessions session_key).isSome then
      (⟨st.message_handler,
        fun k => if k = session_key then some true else st.active_sessions k,
        fun k => if k = session_key then some event else st.pending_messages k⟩,
       false)
    else (st, true)

/-- C1: when a worker for the event's session key is already active,
`handle_message` overwrites the pending slot for that key with the new event
(latest wins — the slot holds at most one event per key by construction),
sets the session's interrupt, starts no second worker, leaves every other
session's state untouched, and returns. -/
theorem handle_message_interrupt (st : AdapterState) (event : MessageEvent)
    (hh : st.message_handler = true)
    (hactive : (st.active_sessions event.source.chat_id).isSome = true) :
    (handle_message st event).2 = false ∧
    (handle_message st event).1.pending_messages event.source.chat_id = some event ∧
    (handle_message st event).1.active_sessions event.source.chat_id = some true ∧
    (∀ k, k ≠ event.source.chat_id →
      (handle_message st event).1.pending_messages k = st.pending_messages k ∧
      (handle_message st event).1.active_sessions k = st.active_sessions k) ∧
    (handle_message st event).1.message_handler = st.message_handler := by
  have hnot : ¬(st.message_handler = false) := by
    rw [hh]
    intro h
    exact Bool.noConfusion h
  refine ⟨?_, ?_, ?_, ?_, ?_⟩ <;>
    simp only [handle_message, if_neg hnot, if_pos hactive, if_true]
  intro k hk
  exact ⟨by simp only [if_neg hk], by simp only [if_neg hk]⟩

/-- C1 (witness): the theorem applied to a concrete state in which session
`c` is active with an unset interrupt and an older pending event. -/
theorem handle_message_interrupt_witness :
    ((handle_message
        ⟨true,
         fun k => if k = ("c").toList then some false else none,
         fun k => if k = ("c").toList
           then some ⟨("old").toList, ⟨Platform.TELEGRAM, ("c").toList⟩⟩ else none⟩
        ⟨("new").toList, ⟨Platform.TELEGRAM, ("c").toList⟩⟩).2 = false) ∧
    ((handle_message
        ⟨true,
         fun k => if k = ("c").toList then some false else none,
         fun k => if k = ("c").toList
           then some ⟨("old").toList, ⟨Platform.TELEGRAM, ("c").toList⟩⟩ else none⟩
        ⟨("new").toList, ⟨Platform.TELEGRAM, ("c").toList⟩⟩).1.pending_messages (("c").toList) =
      some ⟨("new").toList, ⟨Platform.TELEGRAM, ("c").toList⟩⟩) ∧
    ((handle_message
        ⟨true,
         fun k => if k = ("c").toList then some false else none,
         fun k => if k = ("c").toList
           then some ⟨("old").toList, ⟨Platform.TELEGRAM, ("c").toList⟩⟩ else none⟩
        ⟨("new").toList, ⟨Platform.TELEGRAM, ("c").toList⟩⟩).1.active_sessions (("c").toList) =
      some true) :=
  have h := handle_message_interrupt
    ⟨true,
     fun k => if k = ("c").toList then some false else none,
     fun k => if k = ("c").toList
       then some ⟨("old").toList, ⟨Platform.TELEGRAM, ("c").toList⟩⟩ else none⟩
    ⟨("new").toList, ⟨Platform.TELEGRAM, ("c").toList⟩⟩ rfl (by decide)
  ⟨h.1, h.2.1, h.2.2.1⟩



/-- Embedding of Python `content.rfind(ch, 0, n)` restricted to one-character
needles: the greatest index `i < n` with `content[i] = ch`, as an `Option`
(`none` stands for the `-1` Python returns when there is no occurrence). -/
def rfindIdx (c : Char) (l : Str) : Nat → Option Nat
  | 0 => none
  | n + 1 => if l.get? n = some c then some n else rfindIdx c l n

/-- The split index chosen by one iteration of `truncate_message`: the last
newline in the first `max_length` characters, else the last space, else the
hard cut at `max_length`. -/
def splitIdx (content : Str) (max_length : Nat) : Nat :=
  match rfindIdx '\n' content max_length with
  | some i => i
  | none =>
    match rfindIdx ' ' content max_length with
    | some i => i
    | none => max_length

/-- The `while content:` loop of `BasePlatformAdapter.truncate_message`,
with explicit fuel (the caller passes `content.length + 1`, which suffices:
every iteration strictly shortens the content when `max_length` is
positive). -/
def truncLoop (max_length : Nat) : Nat → Str → List Str
  | 0, _ => []
  | fuel + 1, content =>
    if content = [] then []
    else if content.length ≤ max_length then [content]
    else
      let idx := splitIdx content max_length
      content.take idx :: truncLoop max_length fuel (lstripStr (content.drop idx))

/-- Embedding of `BasePlatformAdapter.truncate_message`. -/
def truncate_message (content : Str) (max_length : Nat) : List Str :=
  if content.length ≤ max_length then [content]
  else truncLoop max_length (content.length + 1) content

/-- `i` is the last index of `c` within the first `n` positions of `l`. -/
def IsLastIdx (c : Char) (l : Str) (n i : Nat) : Prop :=
  i < n ∧ l.get? i = some c ∧ ∀ j, i < j → j < n → l.get? j ≠ some c

/-- `c` does not occur within the first `n` positions of `l`. -/
def NoIdx (c : Char) (l : Str) (n : Nat) : Prop :=
  ∀ j, j < n → l.get? j ≠ some c

/-- The split-point preference of the claim: the last newline before the
limit, else the last space, else the hard cut at the limit. -/
def SplitPref (l : Str) (max_length idx : Nat) : Prop :=
  IsLastIdx '\n' l max_length idx ∨
  (NoIdx '\n' l max_length ∧ IsLastIdx ' ' l max_length idx) ∨
  (NoIdx '\n' l max_length ∧ NoIdx ' ' l max_length ∧ idx = max_length)

/-- The chunk list is produced by repeatedly splitting at a preferred split
point and left-stripping the remainder. -/
inductive Chunked (max_length : Nat) : List Str → Str → Prop where
  | done : Chunked max_length [] []
  | last (content : Str) : content ≠ [] → content.length ≤ max_length →
      Chunked max_length [content] content
  | step (content : Str) (idx : Nat) (rest : List Str) :
      max_length < content.length → SplitPref content max_length idx →
      Chunked max_length rest (lstripStr (content.drop idx)) →
      Chunked max_length (content.take idx :: rest) content

/-- Concatenating the chunks with a whitespace-only run after each chunk
rebuilds the original string (whitespace is removed only at chunk
boundaries, including the boundary cut at the very end). -/
inductive JoinsWS : List Str → Str → Prop where
  | nil : JoinsWS [] []
  | cons (c ws : Str) (rest : List Str) (s : Str) :
      (∀ x ∈ ws, pyIsSpace x = true) → JoinsWS rest s →
      JoinsWS (c :: rest) (c ++ ws ++ s)

theorem rfindIdx_isLast {c : Char} {l : Str} :
    ∀ {n i : Nat}, rfindIdx c l n = some i → IsLastIdx c l n i := by
  intro n
  induction n with
  | zero => intro i h; exact Option.noConfusion h
  | succ m ih =>
    intro i h
    simp only [rfindIdx] at h
    by_cases hg : l.get? m = some c
    · rw [if_pos hg] at h
      have hi : i = m := (Option.some.inj h).symm
      subst hi
      exact ⟨Nat.lt_succ_self _, hg, fun j hj1 hj2 => absurd (Nat.lt_of_lt_of_le hj2 (Nat.succ_le_of_lt hj1)) (Nat.lt_irrefl _)⟩
    · rw [if_neg hg] at h
      obtain ⟨h1, h2, h3⟩ := ih h
      refine ⟨Nat.lt_succ_of_lt h1, h2, ?_⟩
      intro j hj1 hj2
      rcases Nat.lt_succ_iff_lt_or_eq.mp hj2 with h4 | h4
      · exact h3 j hj1 h4
      · subst h4; exact hg

theorem rfindIdx_none {c : Char} {l : Str} :
    ∀ {n : Nat}, rfindIdx c l n = none → NoIdx c l n := by
  intro n
  induction n with
  | zero => intro _ j hj; exact absurd hj (Nat.not_lt_zero j)
  | succ m ih =>
    intro h j hj
    simp only [rfindIdx] at h
    by_cases hg : l.get? m = some c
    · rw [if_pos hg] at h; exact Option.noConfusion h
    · rw [if_neg hg] at h
      rcases Nat.lt_succ_iff_lt_or_eq.mp hj with h4 | h4
      · exact ih h j h4
      · subst h4; exact hg

theorem splitIdx_le (content : Str) (max_length : Nat) :
    splitIdx content max_length ≤ max_length := by
  unfold splitIdx
  cases h1 : rfindIdx '\n' content max_length with
  | some i => exact Nat.le_of_lt (rfindIdx_isLast h1).1
  | none =>
    cases h2 : rfindIdx ' ' content max_length with
    | some i => exact Nat.le_of_lt (rfindIdx_isLast h2).1
    | none => exact Nat.le_refl _

theorem splitIdx_pref (content : Str) (max_length : Nat) :
    SplitPref content max_length (splitIdx content max_length) := by
  unfold splitIdx
  cases h1 : rfindIdx '\n' content max_length with
  | some i => exact Or.inl (rfindIdx_isLast h1)
  | none =>
    cases h2 : rfindIdx ' ' content max_length with
    | some i => exact Or.inr (Or.inl ⟨rfindIdx_none h1, rfindIdx_isLast h2⟩)
    | none => exact Or.inr (Or.inr ⟨rfindIdx_none h1, rfindIdx_none h2, rfl⟩)

theorem lstripStr_length_le (l : Str) : (lstripStr l).length ≤ l.length :=
  (List.dropWhile_suffix pyIsSpace).length_le

theorem truncLoop_progress (content : Str) (max_length : Nat) (hL : 0 < max_length)
    (hlen : max_length < content.length) :
    (lstripStr (content.drop (splitIdx content max_length))).length < content.length := by
  set idx := splitIdx content max_length with hidx
  cases Nat.eq_zero_or_pos idx with
  | inr hpos =>
    calc (lstripStr (content.drop idx)).length
        ≤ (content.drop idx).length := lstripStr_length_le _
      _ = content.length - idx := content.length_drop idx
      _ < content.length := Nat.sub_lt (Nat.lt_of_le_of_lt (Nat.zero_le _) hlen) hpos
  | inl hzero =>
    have hpref := splitIdx_pref content max_length
    rw [← hidx, hzero] at hpref
    have hhead : ∃ ch, content.get? 0 = some ch ∧ pyIsSpace ch = true := by
      rcases hpref with h | h | h
      · exact ⟨'\n', h.2.1, by decide⟩
      · exact ⟨' ', h.2.2.1, by decide⟩
      · exact absurd h.2.2 (by omega)
    obtain ⟨ch, hget, hws⟩ := hhead
    rw [hzero, List.drop_zero]
    cases content with
    | nil => exact Option.noConfusion hget
    | cons c0 tl =>
      have hc0 : c0 = ch := Option.some.inj hget
      subst hc0
      simp only [lstripStr, List.dropWhile_cons, hws, if_true]
      exact Nat.lt_succ_of_le (lstripStr_length_le tl)



theorem truncLoop_chunk_le (max_length : Nat) :
    ∀ (fuel : Nat) (content : Str),
    ∀ ch ∈ truncLoop max_length fuel content, ch.length ≤ max_length := by
  intro fuel
  induction fuel with
  | zero => intro content ch hch; exact absurd hch (List.not_mem_nil ch)
  | succ m ih =>
    intro content ch hch
    simp only [truncLoop] at hch
    by_cases h0 : content = []
    · rw [if_pos h0] at hch; exact absurd hch (List.not_mem_nil ch)
    · rw [if_neg h0] at hch
      by_cases h1 : content.length ≤ max_length
      · rw [if_pos h1] at hch
        rw [List.mem_singleton] at hch
        subst hch; exact h1
      · rw [if_neg h1] at hch
        rcases List.mem_cons.mp hch with h2 | h2
        · subst h2
          calc (content.take (splitIdx content max_length)).length
              ≤ splitIdx content max_length := by
                rw [List.length_take]; exact Nat.min_le_left _ _
            _ ≤ max_length := splitIdx_le content max_length
        · exact ih _ ch h2

theorem truncLoop_chunked (max_length : Nat) (hL : 0 < max_length) :
    ∀ (fuel : Nat) (content : Str), content.length < fuel →
    Chunked max_length (truncLoop max_length fuel content) content := by
  intro fuel
  induction fuel with
  | zero => intro content h; exact absurd h (Nat.not_lt_zero _)
  | succ m ih =>
    intro content hfuel
    simp only [truncLoop]
    by_cases h0 : content = []
    · rw [if_pos h0]; subst h0; exact Chunked.done
    · rw [if_neg h0]
      by_cases h1 : content.length ≤ max_length
      · rw [if_pos h1]; exact Chunked.last content h0 h1
      · rw [if_neg h1]
        have hlen : max_length < content.length := Nat.lt_of_not_le h1
        apply Chunked.step content _ _ hlen (splitIdx_pref content max_length)
        apply ih
        have := truncLoop_progress content max_length hL hlen
        omega

theorem joinsWS_single (c : Str) : JoinsWS [c] c := by
  have h := JoinsWS.cons c [] [] [] (fun x hx => absurd hx (List.not_mem_nil x)) JoinsWS.nil
  simpa using h

theorem truncLoop_joins (max_length : Nat) (hL : 0 < max_length) :
    ∀ (fuel : Nat) (content : Str), content.length < fuel →
    JoinsWS (truncLoop max_length fuel content) content := by
  intro fuel
  induction fuel with
  | zero => intro content h; exact absurd h (Nat.not_lt_zero _)
  | succ m ih =>
    intro content hfuel
    simp only [truncLoop]
    by_cases h0 : content = []
    · rw [if_pos h0]; subst h0; exact JoinsWS.nil
    · rw [if_neg h0]
      by_cases h1 : content.length ≤ max_length
      · rw [if_pos h1]
        exact joinsWS_single content
      · rw [if_neg h1]
        have hlen : max_length < content.length := Nat.lt_of_not_le h1
        have hsplit : content =
            content.take (splitIdx content max_length) ++
              ((content.drop (splitIdx content max_length)).takeWhile pyIsSpace ++
                lstripStr (content.drop (splitIdx content max_length))) := by
          simp only [lstripStr]
          rw [List.takeWhile_append_dropWhile]
          exact (List.take_append_drop _ content).symm
        have hrec : JoinsWS
            (truncLoop max_length m (lstripStr (content.drop (splitIdx content max_length))))
            (lstripStr (content.drop (splitIdx content max_length))) := by
          apply ih
          have := truncLoop_progress content max_length hL hlen
          omega
        have hws : ∀ x ∈ (content.drop (splitIdx content max_length)).takeWhile pyIsSpace,
            pyIsSpace x = true :=
          fun x hx => List.mem_takeWhile_imp hx
        have hcons := JoinsWS.cons (content.take (splitIdx content max_length))
          ((content.drop (splitIdx content max_length)).takeWhile pyIsSpace)
          (truncLoop max_length m (lstripStr (content.drop (splitIdx content max_length))))
          (lstripStr (content.drop (splitIdx content max_length))) hws hrec
        rw [List.append_assoc] at hcons
        rw [← hsplit] at hcons
        exact hcons

/-- C6: `truncate_message` returns the content unchanged in a single chunk
when it fits the limit (no split at exactly the limit); every returned
chunk is at most `max_length` long; when the content exceeds the limit the
chunk list arises by repeatedly splitting at the preferred split point —
the last newline strictly before the limit, else the last space, else a
hard cut at the limit — and left-stripping the remainder; and concatenating
the chunks reproduces the original up to the whitespace runs removed at the
chunk boundaries. -/
theorem truncate_message_spec (content : Str) (max_length : Nat) (hL : 0 < max_length) :
    (content.length ≤ max_length → truncate_message content max_length = [content]) ∧
    (∀ ch ∈ truncate_message content max_length, ch.length ≤ max_length) ∧
    (max_length < content.length →
      Chunked max_length (truncate_message content max_length) content) ∧
    JoinsWS (truncate_message content max_length) content := by
  refine ⟨?_, ?_, ?_, ?_⟩
  · intro h
    unfold truncate_message
    rw [if_pos h]
  · intro ch hch
    unfold truncate_message at hch
    by_cases h : content.length ≤ max_length
    · rw [if_pos h] at hch
      rw [List.mem_singleton] at hch
      subst hch; exact h
    · rw [if_neg h] at hch
      exact truncLoop_chunk_le max_length _ content ch hch
  · intro h
    unfold truncate_message
    rw [if_neg (Nat.not_le_of_lt h)]
    exact truncLoop_chunked max_length hL _ content (Nat.lt_succ_self _)
  · unfold truncate_message
    by_cases h : content.length ≤ max_length
    · rw [if_pos h]
      exact joinsWS_single content
    · rw [if_neg h]
      exact truncLoop_joins max_length hL _ content (Nat.lt_succ_self _)

/-- C6 (witness): the theorem applied to the concrete string
`ab cd(newline)ef gh` with limit 5. -/
theorem truncate_message_spec_witness :
    (∀ ch ∈ truncate_message (("ab cd\nef gh").toList) 5, ch.length ≤ 5) ∧
    JoinsWS (truncate_message (("ab cd\nef gh").toList) 5) (("ab cd\nef gh").toList) :=
  ⟨(truncate_message_spec (("ab cd\nef gh").toList) 5 (by decide)).2.1,
   (truncate_message_spec (("ab cd\nef gh").toList) 5 (by decide)).2.2.2⟩

/-- Embedding of Python `s.replace(pat, rep)`: replace every non-overlapping
occurrence left to right. All call sites in the Discord adapter use
nonempty patterns (they contain `<@`); for an empty pattern with an empty
replacement — the only shape the adapter could produce — Python also
returns the string unchanged. -/
def replaceAll (pat rep : Str) : Str → Str
  | [] => []
  | c :: t =>
    if h : pat ≠ [] ∧ pat.isPrefixOf (c :: t) = true then
      rep ++ replaceAll pat rep ((c :: t).drop pat.length)
    else c :: replaceAll pat rep t
termination_by l => l.length
decreasing_by
  · simp only [List.length_drop]
    exact Nat.sub_lt (Nat.succ_pos _) (List.length_pos.mpr h.1)
  · exact Nat.lt_succ_self _

/-- The environment read by `DiscordAdapter._handle_message`
(`gateway/platforms/discord.py`): the two env vars (`none` = unset) and the
bot user (`none` when `client.user` is `None`, otherwise its id string). -/
structure DiscordEnv where
  free_response_channels : Option Str
  require_mention : Option Str
  bot_user : Option Str

/-- The parts of a Discord message the response gate reads: the text, the
channel id, whether the channel is a DM, and whether the bot user is in
`message.mentions`. -/
structure DiscordMessage where
  content : Str
  channel_id : Str
  is_dm : Bool
  bot_mentioned : Bool

/-- The free-response channel set: `DISCORD_FREE_RESPONSE_CHANNELS` split on
commas, entries stripped, empties dropped. -/
def free_channels (env : DiscordEnv) : List Str :=
  ((splitOnChar ',' (env.free_response_channels.getD [])).map trimStr).filter
    (fun ch => ch ≠ [])

/-- The global mention-required flag: `DISCORD_REQUIRE_MENTION` (default
`true`), lower-cased, is required unless it reads `false`, `0` or `no`. -/
def require_mention (env : DiscordEnv) : Bool :=
  let v := lowerStr (env.require_mention.getD (("true").toList))
  !(decide (v = ("false").toList) || decide (v = ("0").toList) ||
    decide (v = ("no").toList))

/-- Mention stripping: when the client has a user and the bot is mentioned,
remove every `<@id>` and then every `<@!id>` occurrence, stripping
surrounding whitespace after each pass. -/
def strip_mentions (env : DiscordEnv) (msg : DiscordMessage) : Str :=
  match env.bot_user with
  | some botId =>
    if msg.bot_mentioned then
      let s1 := trimStr (replaceAll ('<' :: '@' :: botId ++ ['>']) [] msg.content)
      trimStr (replaceAll ('<' :: '@' :: '!' :: botId ++ ['>']) [] s1)
    else msg.content
  | none => msg.content

/-- Embedding of the response gate of `DiscordAdapter._handle_message`:
`none` when the message is silently ignored, `some text` when the (possibly
mention-stripped) text goes on to `handle_message`. -/
def discord_gate (env : DiscordEnv) (msg : DiscordMessage) : Option Str :=
  if msg.is_dm then some msg.content
  else
    if require_mention env = true ∧ msg.channel_id ∉ free_channels env then
      if msg.bot_mentioned = false then none
      else some (strip_mentions env msg)
    else some (strip_mentions env msg)

/-- C8: for a non-DM Discord message, the handler is invoked iff the bot is
mentioned, or the channel is in `DISCORD_FREE_RESPONSE_CHANNELS`, or
`DISCORD_REQUIRE_MENTION` is false; the free-response list takes precedence
over the global flag; and the handler sees the mention-stripped text. -/
theorem discord_response_gate (env : DiscordEnv) (msg : DiscordMessage)
    (hdm : msg.is_dm = false) :
    ((discord_gate env msg).isSome = true ↔
      (msg.bot_mentioned = true ∨ msg.channel_id ∈ free_channels env ∨
        require_mention env = false)) ∧
    (msg.channel_id ∈ free_channels env → (discord_gate env msg).isSome = true) ∧
    (∀ t, discord_gate env msg = some t → t = strip_mentions env msg) := by
  have hdm2 : ¬(msg.is_dm = true) := by rw [hdm]; exact Bool.noConfusion
  have hkey : discord_gate env msg =
      if require_mention env = true ∧ msg.channel_id ∉ free_channels env ∧
          msg.bot_mentioned = false then none
      else some (strip_mentions env msg) := by
    rw [discord_gate, if_neg hdm2]
    by_cases hc : require_mention env = true ∧ msg.channel_id ∉ free_channels env
    · rw [if_pos hc]
      by_cases hm : msg.bot_mentioned = false
      · rw [if_pos hm, if_pos ⟨hc.1, hc.2, hm⟩]
      · rw [if_neg hm, if_neg (fun h => hm h.2.2)]
    · rw [if_neg hc, if_neg (fun h => hc ⟨h.1, h.2.1⟩)]
  rw [hkey]
  by_cases hc : require_mention env = true ∧ msg.channel_id ∉ free_channels env ∧
      msg.bot_mentioned = false
  · rw [if_pos hc]
    refine ⟨?_, ?_, ?_⟩
    · constructor
      · intro h; exact absurd h Bool.noConfusion
      · intro h
        rcases h with h | h | h
        · exact absurd h (by rw [hc.2.2]; exact Bool.noConfusion)
        · exact absurd h hc.2.1
        · exact absurd h (by rw [hc.1]; exact Bool.noConfusion)
    · intro h; exact absurd h hc.2.1
    · intro t h; exact Option.noConfusion h
  · rw [if_neg hc]
    refine ⟨?_, ?_, ?_⟩
    · constructor
      · intro _
        by_cases h1 : require_mention env = true
        · by_cases h2 : msg.channel_id ∈ free_channels env
          · exact Or.inr (Or.inl h2)
          · by_cases h3 : msg.bot_mentioned = false
            · exact absurd ⟨h1, h2, h3⟩ hc
            · rcases Bool.eq_false_or_eq_true msg.bot_mentioned with hb | hb
              · exact Or.inl hb
              · exact absurd hb h3
        · rcases Bool.eq_false_or_eq_true (require_mention env) with hb | hb
          · exact absurd hb h1
          · exact Or.inr (Or.inr hb)
      · intro _; rfl
    · intro _; rfl
    · intro t h; exact (Option.some.inj h).symm



/-- C8 (witness): the gate theorem at a concrete non-DM message in a
free-response channel with a mention. -/
theorem discord_response_gate_witness :
    ((discord_gate ⟨some (("123,456").toList), none, some (("99").toList)⟩
        ⟨("<@99> hi").toList, ("123").toList, false, true⟩).isSome = true ↔
      ((⟨("<@99> hi").toList, ("123").toList, false, true⟩ :
          DiscordMessage).bot_mentioned = true ∨
        (⟨("<@99> hi").toList, ("123").toList, false, true⟩ :
          DiscordMessage).channel_id ∈
          free_channels ⟨some (("123,456").toList), none, some (("99").toList)⟩ ∨
        require_mention ⟨some (("123,456").toList), none, some (("99").toList)⟩ = false)) ∧
    ((⟨("<@99> hi").toList, ("123").toList, false, true⟩ :
        DiscordMessage).channel_id ∈
        free_channels ⟨some (("123,456").toList), none, some (("99").toList)⟩ →
      (discord_gate ⟨some (("123,456").toList), none, some (("99").toList)⟩
        ⟨("<@99> hi").toList, ("123").toList, false, true⟩).isSome = true) ∧
    (∀ t, discord_gate ⟨some (("123,456").toList), none, some (("99").toList)⟩
        ⟨("<@99> hi").toList, ("123").toList, false, true⟩ = some t →
      t = strip_mentions ⟨some (("123,456").toList), none, some (("99").toList)⟩
        ⟨("<@99> hi").toList, ("123").toList, false, true⟩) :=
  discord_response_gate ⟨some (("123,456").toList), none, some (("99").toList)⟩
    ⟨("<@99> hi").toList, ("123").toList, false, true⟩ rfl

/-- A canonical filesystem path as its `Path.parts` component tuple: Python
`Path` equality is parts equality, and `t in p.parents` is proper-prefix on
parts (for the normalized paths produced by `os.path.realpath`). -/
abbrev PathParts := List Str

/-- The filesystem oracle consulted by `_validate_file_path`
(`tools/send_message_tool.py`): `os.path.realpath` (symlink-resolving
canonicalization), `os.path.exists` and `os.path.isfile` on the resolved
path. -/
structure FileSystem where
  realpath : Str → PathParts
  path_exists : PathParts → Bool
  isfile : PathParts → Bool

/-- The trust environment of `_validate_file_path`: the three built-in
roots (already passed through `expanduser` and `realpath`), the raw
`HERMES_TRUSTED_DOCUMENT_DIRS` value, and `Path(os.path.expanduser(-))`
for its entries (which the source does not pass through `realpath`). -/
structure TrustEnv where
  hermes_dir : PathParts
  tmp_dir : PathParts
  documents_dir : PathParts
  trusted_env : Option Str
  expanduser : Str → PathParts

/-- The trusted directory list built by `_validate_file_path`: the three
built-in roots plus the colon-separated, stripped, nonempty entries of
`HERMES_TRUSTED_DOCUMENT_DIRS`. -/
def trusted_dirs (env : TrustEnv) : List PathParts :=
  [env.hermes_dir, env.tmp_dir, env.documents_dir] ++
  (let extra := env.trusted_env.getD []
   if extra = [] then []
   else (((splitOnChar ':' extra).map trimStr).filter (fun d => d ≠ [])).map env.expanduser)

/-- Python `resolved == t or t in resolved.parents` on parts: equality or
proper prefix. -/
def is_under_or_eq (t resolved : PathParts) : Bool :=
  decide (resolved = t) || (t.isPrefixOf resolved && decide (t ≠ resolved))

/-- The traversal rejection message (source text has quotes around the
dots). -/
def path_traversal_error : Str :=
  ("Path traversal detected: .. components are not allowed").toList

def file_not_found_error (fp : Str) : Str := ("File not found: ").toList ++ fp

def not_a_file_error (fp : Str) : Str := ("Path is not a file: ").toList ++ fp

def outside_trusted_error (fp : Str) : Str :=
  ("File path outside trusted directories: ").toList ++ fp

/-- Embedding of `_validate_file_path`: `none` means the path is accepted,
`some e` is the error string. The source checks `'..' in
file_path.split("/")` and `'..' in file_path.split(os.sep)`; on POSIX
`os.sep` is `/`, so the two checks coincide. -/
def validate_file_path (fs : FileSystem) (env : TrustEnv) (file_path : Str) : Option Str :=
  if file_path = [] then none
  else if (splitOnChar '/' file_path).contains (("..").toList) then some path_traversal_error
  else
    let real_path := fs.realpath file_path
    if fs.path_exists real_path = false then some (file_not_found_error file_path)
    else if fs.isfile real_path = false then some (not_a_file_error file_path)
    else if (trusted_dirs env).any (fun t => is_under_or_eq t real_path) then none
    else some (outside_trusted_error file_path)

/-- Outcome of the argument-validation prefix of `_handle_send`: either an
early error return (the send is never attempted) or control proceeding to
target resolution and the actual send. -/
inductive SendOutcome where
  | error (e : Str)
  | proceed
deriving DecidableEq, Repr

/-- Embedding of the validation prefix of `_handle_send`
(`tools/send_message_tool.py`): missing target, missing content, then
`_validate_file_path`; `proceed` marks control reaching the
name-resolution/send section. -/
def handle_send_validation (fs : FileSystem) (env : TrustEnv)
    (target message file_path : Str) : SendOutcome :=
  if target = [] then .error (("target is required when action=send").toList)
  else if message = [] ∧ file_path = [] then
    .error (("At least one of message or file_path is required when action=send").toList)
  else if file_path ≠ [] then
    match validate_file_path fs env file_path with
    | some e => .error e
    | none => .proceed
  else .proceed

/-- C2: a `file_path` whose slash-separated components include `..` is
rejected with the traversal error for every filesystem oracle — the
rejection depends only on the raw string, so no filesystem access happens —
and `_handle_send` returns the error before any send; an existing regular
file whose resolved path is neither equal to nor under any trusted root is
rejected with the outside-trusted-directories error and never sent. -/
theorem validate_file_path_spec (fs : FileSystem) (env : TrustEnv)
    (target message file_path : Str) (htarget : target ≠ []) :
    ((splitOnChar '/' file_path).contains (("..").toList) = true →
      validate_file_path fs env file_path = some path_traversal_error ∧
      handle_send_validation fs env target message file_path =
        .error path_traversal_error) ∧
    (file_path ≠ [] →
      (splitOnChar '/' file_path).contains (("..").toList) = false →
      fs.path_exists (fs.realpath file_path) = true →
      fs.isfile (fs.realpath file_path) = true →
      (∀ t ∈ trusted_dirs env, is_under_or_eq t (fs.realpath file_path) = false) →
      validate_file_path fs env file_path = some (outside_trusted_error file_path) ∧
      handle_send_validation fs env target message file_path =
        .error (outside_trusted_error file_path)) := by
  constructor
  · intro hdots
    have hfp : file_path ≠ [] := by
      intro he
      subst he
      exact Bool.noConfusion hdots
    have hval : validate_file_path fs env file_path = some path_traversal_error := by
      rw [validate_file_path, if_neg hfp, if_pos hdots]
    refine ⟨hval, ?_⟩
    rw [handle_send_validation, if_neg htarget,
      if_neg (fun h => hfp h.2), if_pos hfp, hval]
  · intro hfp hdots hex hisf htrust
    have hany : (trusted_dirs env).any
        (fun t => is_under_or_eq t (fs.realpath file_path)) = false := by
      rw [List.any_eq_false]
      intro t ht
      rw [htrust t ht]
      exact Bool.noConfusion
    have hval : validate_file_path fs env file_path =
        some (outside_trusted_error file_path) := by
      rw [validate_file_path, if_neg hfp]
      rw [if_neg (fun h => Bool.noConfusion (hdots ▸ h))]
      rw [if_neg (fun h => Bool.noConfusion (hex ▸ h)), if_neg (fun h => Bool.noConfusion (hisf ▸ h))]
      rw [if_neg (fun h => Bool.noConfusion (hany ▸ h))]
    refine ⟨hval, ?_⟩
    rw [handle_send_validation, if_neg htarget,
      if_neg (fun h => hfp h.2), if_pos hfp, hval]



/-- C2 (witness): the validation theorem applied at the concrete traversal
input `a/../b` (for an arbitrary concrete filesystem) and at the concrete
untrusted file `/etc/passwd` (existing regular file outside every trusted
root). -/
theorem validate_file_path_spec_witness :
    (validate_file_path
        ⟨fun _ => [("etc").toList], fun _ => true, fun _ => true⟩
        ⟨[("home").toList, (".hermes").toList], [("tmp").toList],
         [("home").toList, ("Documents").toList], none, fun _ => []⟩
        (("a/../b").toList) = some path_traversal_error) ∧
    (validate_file_path
        ⟨fun _ => [("etc").toList, ("passwd").toList], fun _ => true, fun _ => true⟩
        ⟨[("home").toList, (".hermes").toList], [("tmp").toList],
         [("home").toList, ("Documents").toList], none, fun _ => []⟩
        (("/etc/passwd").toList) =
      some (outside_trusted_error (("/etc/passwd").toList))) ∧
    (handle_send_validation
        ⟨fun _ => [("etc").toList, ("passwd").toList], fun _ => true, fun _ => true⟩
        ⟨[("home").toList, (".hermes").toList], [("tmp").toList],
         [("home").toList, ("Documents").toList], none, fun _ => []⟩
        (("telegram").toList) (("hi").toList) (("/etc/passwd").toList) =
      .error (outside_trusted_error (("/etc/passwd").toList))) :=
  ⟨(validate_file_path_spec
      ⟨fun _ => [("etc").toList], fun _ => true, fun _ => true⟩
      ⟨[("home").toList, (".hermes").toList], [("tmp").toList],
       [("home").toList, ("Documents").toList], none, fun _ => []⟩
      (("telegram").toList) (("hi").toList) (("a/../b").toList)
      (by decide)).1 (by decide) |>.1,
   (validate_file_path_spec
      ⟨fun _ => [("etc").toList, ("passwd").toList], fun _ => true, fun _ => true⟩
      ⟨[("home").toList, (".hermes").toList], [("tmp").toList],
       [("home").toList, ("Documents").toList], none, fun _ => []⟩
      (("telegram").toList) (("hi").toList) (("/etc/passwd").toList)
      (by decide)).2 (by decide) (by decide) rfl rfl (by decide) |>.1,
   (validate_file_path_spec
      ⟨fun _ => [("etc").toList, ("passwd").toList], fun _ => true, fun _ => true⟩
      ⟨[("home").toList, (".hermes").toList], [("tmp").toList],
       [("home").toList, ("Documents").toList], none, fun _ => []⟩
      (("telegram").toList) (("hi").toList) (("/etc/passwd").toList)
      (by decide)).2 (by decide) (by decide) rfl rfl (by decide) |>.2⟩

end Hermes
